import Mathlib

/-!
# KERN v3 runtime — shallow embedding and verification

This file embeds the deterministic execution engine of
`kern_runtime_v3_full.ts` (the KERN v3 "hardened" runtime) in Lean 4 and
proves/refutes the specification claims about it.

Modelling conventions:

* JSON/JS values are the inductive type `Val`.  JavaScript's `undefined` is
  represented as `Option.none` wherever a value may be absent (object
  property reads, resolved input fields, primitive results).  `NaN` is its
  own constructor `vNaN` (in JS `typeof NaN = "number"`, and
  `NaN === NaN` is false, but the runtime only ever tests `Number.isNaN`,
  which `vNaN` models).  Finite JS numbers are modelled as rationals.
* Objects are insertion-ordered association lists, mirroring JS object key
  order.  Writing an existing key updates it in place; a new key is
  appended — exactly JS semantics.  Keys whose value would be `undefined`
  are omitted (JSON.stringify drops them and every `!== undefined` test
  treats them as absent).
* Dynamic code evaluation (`new Function("..." )` over expression strings,
  including the `Math`/`now()`/`uuid()` helpers injected by
  `RULE_APPLICATOR`) cannot be embedded directly; it is abstracted as an
  oracle `Env.evalExpr : String → Val → Except String Val` carried by the
  run environment.  Ambient nondeterminism (the wall clock used by
  `timestamp()`, `crypto.randomUUID()`, and `Math.random` reachable from
  evaluated expressions) lives in the environment: two executions of the
  real program correspond to two (possibly different) `Env` values.
* `sha256(JSON.stringify x)` is modelled as the serialization itself
  (`hashState`): a deterministic pure function of the payload, with hash
  collisions idealized away.
* A JS exception escaping a primitive is `Except.error`; the interpreter
  does not catch it, so it aborts the whole `execute` call, as in the
  source.
-/

set_option maxHeartbeats 1000000

namespace Kern

/-- JSON-representable JS values (the record tree, step params, primitive
inputs and outputs).  `vNaN` is the IEEE not-a-number value, `vNull` is JS
`null`; JS `undefined` is represented externally as `Option.none`. -/
inductive Val where
  | vStr  : String → Val
  | vNum  : Rat → Val
  | vNaN  : Val
  | vBool : Bool → Val
  | vNull : Val
  | vArr  : List Val → Val
  | vObj  : List (String × Val) → Val
  deriving Repr

open Val

/-- JS truthiness: `false`, `0`, `NaN`, `""`, `null` (and `undefined`) are
falsy; every object and array is truthy. -/
def jsTruthy : Val → Bool
  | vStr s  => s ≠ ""
  | vNum q  => q ≠ 0
  | vNaN    => false
  | vBool b => b
  | vNull   => false
  | vArr _  => true
  | vObj _  => true

/-- Truthiness of a possibly-`undefined` value. -/
def jsTruthyO : Option Val → Bool
  | none   => false
  | some v => jsTruthy v

/-- First-match association-list lookup: models reading an own property of
a plain JS object. -/
def objGet : List (String × Val) → String → Option Val
  | [], _ => none
  | (k', v') :: rest, k => if k' = k then some v' else objGet rest k

/-- JS object property write: an existing key keeps its position, a new
key is appended (JS insertion order). -/
def objSet : List (String × Val) → String → Val → List (String × Val)
  | [], k, v => [(k, v)]
  | (k', v') :: rest, k, v =>
      if k' = k then (k, v) :: rest else (k', v') :: objSet rest k v

/-- Property read on an arbitrary value (`x[k]`): objects look up the key;
primitives and arrays yield `undefined` (array `length`/index properties
are not modelled — no claim exercises paths through arrays). -/
def getField : Val → String → Option Val
  | vObj kvs, k => objGet kvs k
  | _, _ => none

/-- Split a character list on a separator (`"a.b" ↦ [["a"],["b"]]` as
character groups; the empty list gives one empty group, as JS
`"".split(".") = [""]`). -/
def splitChars (sep : Char) : List Char → List (List Char)
  | [] => [[]]
  | c :: rest =>
      match splitChars sep rest with
      | g :: gs => if c = sep then [] :: g :: gs else (c :: g) :: gs
      | [] => [[c]]

/-- `s.split(sep)` for a one-character separator (kernel-reducible stand-in
for `String.splitOn`). -/
def jsSplit (sep : Char) (s : String) : List String :=
  (splitChars sep s.data).map String.mk

/-- The whitespace characters `trim` strips (ASCII subset). -/
def isWhiteChar (c : Char) : Bool :=
  c = ' ' || c = '\t' || c = '\n' || c = '\r'

/-- `s.trim()` (kernel-reducible). -/
def jsTrim (s : String) : String :=
  String.mk (((s.data.dropWhile isWhiteChar).reverse.dropWhile isWhiteChar).reverse)

/-- `s.startsWith(p)` (kernel-reducible). -/
def jsStartsWith (p s : String) : Bool := p.data.isPrefixOf s.data

/-- `s.endsWith(p)` (kernel-reducible). -/
def jsEndsWith (p s : String) : Bool := p.data.reverse.isPrefixOf s.data.reverse

mutual

/-- JS `String(x)` coercion.  Objects stringify to `"[object Object]"`,
arrays join their elements with commas. -/
def jsToString : Val → String
  | vStr s  => s
  | vNum q  => if q.den = 1 then toString q.num else toString q.num ++ "/" ++ toString q.den
  | vNaN    => "NaN"
  | vBool b => if b then "true" else "false"
  | vNull   => "null"
  | vArr l  => jsArrJoin l
  | vObj _  => "[object Object]"

/-- `Array.prototype.toString`: elements joined by `","`; `null` (and
`undefined`) elements contribute the empty string. -/
def jsArrJoin : List Val → String
  | [] => ""
  | [v] => (match v with | vNull => "" | x => jsToString x)
  | v :: rest =>
      (match v with | vNull => "" | x => jsToString x) ++ "," ++ jsArrJoin rest

end

/-- `String(undefined) = "undefined"` — coercion of a possibly-absent
value, used when a value is spliced into generated code text. -/
def jsToStringO : Option Val → String
  | none => "undefined"
  | some v => jsToString v

/-- Literal `{` for building JSON text. -/
def lb : String := "\x7b"

/-- Literal `}` for building JSON text. -/
def rb : String := "\x7d"

mutual

/-- Model of `JSON.stringify`.  `NaN` serializes as `null` (a real JS
behaviour the runtime relies on in `deepClone`).  Number formatting and
string escaping are simplified but deterministic and injective on the
concrete values appearing in this development. -/
def stringify : Val → String
  | vStr s  => "\"" ++ s ++ "\""
  | vNum q  => if q.den = 1 then toString q.num else toString q.num ++ "/" ++ toString q.den
  | vNaN    => "null"
  | vBool b => if b then "true" else "false"
  | vNull   => "null"
  | vArr l  => "[" ++ stringifyArr l ++ "]"
  | vObj kvs => lb ++ stringifyObj kvs ++ rb

/-- Serialize array elements, comma-separated. -/
def stringifyArr : List Val → String
  | [] => ""
  | [v] => stringify v
  | v :: rest => stringify v ++ "," ++ stringifyArr rest

/-- Serialize object entries, comma-separated. -/
def stringifyObj : List (String × Val) → String
  | [] => ""
  | [(k, v)] => "\"" ++ k ++ "\":" ++ stringify v
  | (k, v) :: rest => "\"" ++ k ++ "\":" ++ stringify v ++ "," ++ stringifyObj rest

end

mutual

/-- `deepClone = JSON.parse ∘ JSON.stringify` (source line 70-72): the
structure survives, but `NaN` becomes `null` (stringify writes `null`,
parse reads it back as null). -/
def deepClone : Val → Val
  | vStr s  => vStr s
  | vNum q  => vNum q
  | vNaN    => vNull
  | vBool b => vBool b
  | vNull   => vNull
  | vArr l  => vArr (deepCloneArr l)
  | vObj kvs => vObj (deepCloneObj kvs)

/-- Clone array elements. -/
def deepCloneArr : List Val → List Val
  | [] => []
  | v :: rest => deepClone v :: deepCloneArr rest

/-- Clone object entries. -/
def deepCloneObj : List (String × Val) → List (String × Val)
  | [] => []
  | (k, v) :: rest => (k, deepClone v) :: deepCloneObj rest

end

mutual

/-- Decidable test: does a value contain `NaN` anywhere?  `deepClone` is
the identity exactly on NaN-free values. -/
def hasNaN : Val → Bool
  | vStr _  => false
  | vNum _  => false
  | vNaN    => true
  | vBool _ => false
  | vNull   => false
  | vArr l  => hasNaNArr l
  | vObj kvs => hasNaNObj kvs

/-- `hasNaN` over array elements. -/
def hasNaNArr : List Val → Bool
  | [] => false
  | v :: rest => hasNaN v || hasNaNArr rest

/-- `hasNaN` over object entries. -/
def hasNaNObj : List (String × Val) → Bool
  | [] => false
  | (_, v) :: rest => hasNaN v || hasNaNObj rest

end

/-- Parse an unsigned decimal digit run; returns accumulated value and
digit count, `none` on a non-digit. -/
def parseDigits (acc : Nat) (cnt : Nat) : List Char → Option (Nat × Nat)
  | [] => some (acc, cnt)
  | c :: rest =>
      if c.isDigit then parseDigits (acc * 10 + (c.toNat - 48)) (cnt + 1) rest
      else none

/-- Model of JS `Number(string)` restricted to plain decimal literals
(optional sign, integer part, optional fractional part); `none` models a
`NaN` result.  Whitespace-only strings coerce to `0` as in JS.  Exotic JS
forms (hex, exponents, `Infinity`) are not modelled — no claim uses them. -/
def jsStringToNumber (s : String) : Option Rat :=
  let t := jsTrim s
  if t = "" then some 0
  else
    let (sign, body) : Rat × List Char :=
      match t.data with
      | '-' :: rest => (-1, rest)
      | '+' :: rest => (1, rest)
      | cs => (1, cs)
    let intPart := body.takeWhile (·.isDigit)
    let afterInt := body.drop intPart.length
    match afterInt with
    | [] =>
        if intPart.isEmpty then none
        else (parseDigits 0 0 intPart).map (fun p => sign * (p.1 : Rat))
    | '.' :: fracChars =>
        if fracChars.all (·.isDigit) ∧ ¬(intPart.isEmpty ∧ fracChars.isEmpty) then
          match parseDigits 0 0 intPart, parseDigits 0 0 fracChars with
          | some ip, some fp =>
              some (sign * ((ip.1 : Rat) + (fp.1 : Rat) / ((10 : Rat) ^ fp.2)))
          | _, _ => none
        else none
    | _ => none

/-- JS `ToPrimitive` as used by `+`: objects and arrays become strings. -/
def jsToPrim : Val → Val
  | vObj _ => vStr "[object Object]"
  | vArr l => vStr (jsArrJoin l)
  | v => v

/-- JS `ToNumber` on a primitive; `none` is `NaN`. -/
def jsToNumber : Val → Option Rat
  | vStr s  => jsStringToNumber s
  | vNum q  => some q
  | vNaN    => none
  | vBool b => some (if b then 1 else 0)
  | vNull   => some 0
  | vArr l  => jsStringToNumber (jsArrJoin l)
  | vObj _  => none

/-- JS `+`: string concatenation if either primitivized operand is a
string, numeric addition otherwise (with `NaN` propagation). -/
def jsAdd (a b : Val) : Val :=
  let pa := jsToPrim a
  let pb := jsToPrim b
  match pa, pb with
  | vStr sa, _ => vStr (sa ++ jsToString pb)
  | _, vStr sb => vStr (jsToString pa ++ sb)
  | _, _ =>
      match jsToNumber pa, jsToNumber pb with
      | some x, some y => vNum (x + y)
      | _, _ => vNaN

/-- JS division by a positive integer count (the composite scorer's mean);
a non-numeric dividend yields `NaN`. -/
def jsDivByLen (a : Val) (n : Nat) : Val :=
  match jsToNumber (jsToPrim a) with
  | some x => vNum (x / (n : Rat))
  | none => vNaN

/-- Dotted-path read used by `KernRuntime.resolve` (source 459-461):
`path.split(".").reduce((o, k) => (o ? o[k] : undefined), state)`.
A falsy intermediate yields `undefined`; property reads on primitives
yield `undefined`; no step ever throws. -/
def resolve (state : Val) (p : String) : Option Val :=
  (jsSplit '.' p).foldl
    (fun o k => match o with
      | some v => if jsTruthy v then getField v k else none
      | none => none)
    (some state)

/-- Spec-side dotted-path read over mapping nodes only (used to state what
a successful write produced). -/
def readPath : Val → List String → Option Val
  | v, [] => some v
  | vObj kvs, k :: rest =>
      match objGet kvs k with
      | some c => readPath c rest
      | none => none
  | _, _ :: _ => none

/-- One JS property assignment `cur[k] = v` where `cur` may be any value
(`none` = `undefined`).  Non-strict-mode semantics: assigning to a
property of a primitive is a silent no-op; assigning to a property of
`undefined` or `null` throws a `TypeError`.  (Assignments to array
properties are not modelled; no claim writes paths through arrays.) -/
def jsSetProp : Option Val → String → Val → Except String (Option Val)
  | none, _, _ => .error "TypeError: cannot set properties of undefined"
  | some vNull, _, _ => .error "TypeError: cannot set properties of null"
  | some (vObj kvs), k, v => .ok (some (vObj (objSet kvs k v)))
  | some other, _, _ => .ok (some other)

/-- One JS property read `cur[k]` during write navigation. -/
def jsGetProp : Option Val → String → Except String (Option Val)
  | none, _ => .error "TypeError: cannot read properties of undefined"
  | some vNull, _ => .error "TypeError: cannot read properties of null"
  | some (vObj kvs), k => .ok (objGet kvs k)
  | some _, _ => .ok none

/-- The nested-path write loop shared by `STATE_MUTATOR` (122-129),
`KernRuntime.set` (463-472) and `RULE_APPLICATOR`'s assignment step
(227-242):

```js
for (let i = 0; i < keys.length - 1; i++) {
  if (!obj[keys[i]]) obj[keys[i]] = {};
  obj = obj[keys[i]];
}
obj[keys[keys.length - 1]] = value;
```

A falsy intermediate is replaced by a fresh `{}`; a truthy non-object
intermediate makes the replacement a silent no-op, the traversal walks
into `undefined`, and the next access throws — mutation and throwing are
mutually exclusive, so an error leaves the tree untouched. -/
def jsNavWrite : Option Val → List String → Val → Except String (Option Val)
  | cur, [], _ => .ok cur
  | cur, [k], value => jsSetProp cur k value
  | some (vObj kvs), k :: k' :: rest, value =>
      match objGet kvs k with
      | some c =>
          if jsTruthy c then
            match jsNavWrite (some c) (k' :: rest) value with
            | .ok sub => .ok (some (vObj (objSet kvs k (sub.getD vNull))))
            | .error e => .error e
          else
            match jsNavWrite (some (vObj [])) (k' :: rest) value with
            | .ok sub => .ok (some (vObj (objSet kvs k (sub.getD vNull))))
            | .error e => .error e
      | none =>
          match jsNavWrite (some (vObj [])) (k' :: rest) value with
          | .ok sub => .ok (some (vObj (objSet kvs k (sub.getD vNull))))
          | .error e => .error e
  | none, _ :: _ :: _, _ => .error "TypeError: cannot read properties of undefined"
  | some vNull, _ :: _ :: _, _ => .error "TypeError: cannot read properties of null"
  | some prim, _ :: k' :: rest, value =>
      -- `obj[k]` reads `undefined` (falsy), `obj[k] = {}` is a no-op,
      -- `obj = obj[k]` re-reads `undefined`; the recursive call throws.
      match jsNavWrite none (k' :: rest) value with
      | .ok _ => .ok (some prim)
      | .error e => .error e

/-- Total wrapper: result of a successful navigation write, defaulting to
the unchanged tree (used only to state theorems about the success case). -/
def navWriteD (state : Val) (keys : List String) (value : Val) : Val :=
  match jsNavWrite (some state) keys value with
  | .ok (some w) => w
  | _ => state

/-- Decidable precondition under which the write loop cannot go wrong:
walking the existing tree, every truthy value met at an intermediate key
is a mapping (falsy/absent intermediates get replaced by `{}`, which is
always safe). -/
def writeOk : Val → List String → Bool
  | vObj _, [_] => true
  | vObj kvs, k :: k' :: rest =>
      (match objGet kvs k with
       | some c => if jsTruthy c then writeOk c (k' :: rest) else writeOk (vObj []) (k' :: rest)
       | none => writeOk (vObj []) (k' :: rest))
  | _, _ => false

/-- Build an object literal, dropping keys whose value is `undefined`
(see the modelling conventions: a present-with-`undefined` key is
indistinguishable from an absent one for every test the runtime makes). -/
def mkObj (entries : List (String × Option Val)) : Val :=
  vObj (entries.filterMap (fun p => p.2.map (fun v => (p.1, v))))

/-- Model of `Object.entries` as applied to `assignments || {}`: objects
give their entries, strings enumerate characters by index, everything
else gives `[]` (`Object.entries(5) = []`; falsy values were already
replaced by `{}`). -/
def jsEntries : Val → List (String × Val)
  | vObj kvs => kvs
  | vStr s => (s.data.enum.map (fun p => (toString p.1, vStr (String.mk [p.2]))))
  | _ => []

/-- The dynamic-expression oracle: the behaviour of
`new Function("...", "with(...){ return (<text>); }")` applied to a scope
object.  `Except.error` is a caught construction/evaluation exception.
The oracle is part of the run environment because evaluated text can reach
`Math.random`, `Date`, and the injected `now()`/`uuid()` helpers. -/
abbrev EvalFn := String → Val → Except String Val

/-- `CONDITION_EVALUATOR` (source 83-90): evaluates `input.condition`
against `input.context || {}`; failures are caught and reported as
`{ result:false, error }`. -/
def condEvaluator (eval : EvalFn) (input : Val) : Val :=
  let condStr := jsToStringO (getField input "condition")
  let scope :=
    match getField input "context" with
    | some c => if jsTruthy c then c else vObj []
    | none => vObj []
  match eval condStr scope with
  | .ok v => vObj [("result", vBool (jsTruthy v))]
  | .error m => vObj [("result", vBool false), ("error", vStr m)]

/-- `EXPRESSION_EVALUATOR` (source 92-106): evaluates `input.expression`;
a `NaN` numeric result is tagged with the synthetic-violation marker. -/
def exprEvaluator (eval : EvalFn) (input : Val) : Val :=
  let exprStr := jsToStringO (getField input "expression")
  let scope :=
    match getField input "context" with
    | some c => if jsTruthy c then c else vObj []
    | none => vObj []
  match eval exprStr scope with
  | .ok vNaN => vObj [("value", vNaN), ("_violation", vStr "NaN_detected")]
  | .ok v => vObj [("value", v)]
  | .error m => vObj [("error", vStr m)]

/-- `STATE_MUTATOR` (source 108-132).  Validates the path (must be a
truthy string), rejects `null`/`undefined` values with a synthetic
violation tag, otherwise runs the unguarded write loop — whose `TypeError`
(path through a truthy non-mapping, three or more segments) escapes the
primitive, surfacing here as `Except.error`. -/
def stateMutator (input : Val) (state : Val) : Except String (Val × Val) :=
  match getField input "path" with
  | some (vStr s) =>
      if s = "" then
        .ok (vObj [("success", vBool false), ("message", vStr "Invalid or missing path")], state)
      else
        match getField input "value" with
        | none =>
            .ok (vObj [("success", vBool false), ("_violation", vStr "empty_output_detected")], state)
        | some vNull =>
            .ok (vObj [("success", vBool false), ("_violation", vStr "empty_output_detected")], state)
        | some v =>
            match jsNavWrite (some state) (jsSplit '.' s) v with
            | .ok st' =>
                .ok (vObj [("success", vBool true), ("updatedPath", vStr s), ("newValue", v)],
                     st'.getD state)
            | .error e => .error e
  | _ =>
      .ok (vObj [("success", vBool false), ("message", vStr "Invalid or missing path")], state)

/-- `COMPOSITE_SCORER` (source 135-150).  `input.scores || []`; an empty
array yields the `empty_scores_array` NaN tag; a truthy non-array has no
`reduce` method and the `TypeError` escapes (modelled as `Except.error`);
otherwise the arithmetic mean, or the `synthetic_NaN_test` tag when
`trigger_nan_test` is truthy. -/
def compositeScorer (input : Val) : Except String Val :=
  let scoresV :=
    match getField input "scores" with
    | some v => if jsTruthy v then v else vArr []
    | none => vArr []
  match scoresV with
  | vArr [] => .ok (vObj [("normalized_score", vNaN), ("_violation", vStr "empty_scores_array")])
  | vArr l =>
      let sum := l.foldl jsAdd (vNum 0)
      let normalized := jsDivByLen sum l.length
      if jsTruthyO (getField input "trigger_nan_test") then
        .ok (vObj [("normalized_score", vNaN), ("_violation", vStr "synthetic_NaN_test")])
      else
        .ok (vObj [("normalized_score", normalized)])
  | _ => .error "TypeError: scores.reduce is not a function"

/-- Is a string a `{{...}}` template expression? -/
def isTemplate (s : String) : Bool :=
  jsStartsWith (lb ++ lb) s && jsEndsWith (rb ++ rb) s

/-- `expression.slice(2, -2).trim()`. -/
def templateBody (s : String) : String :=
  jsTrim ((s.drop 2).dropRight 2)

/-- Direct-value conversion for a non-template assignment expression
(source 215-224): literal `"true"`/`"false"` strings become booleans, a
numeric-looking non-empty string becomes a number, anything else is used
verbatim. -/
def convertLiteral (expr : Val) : Val :=
  match expr with
  | vStr s =>
      if s = "true" then vBool true
      else if s = "false" then vBool false
      else
        match jsStringToNumber s with
        | some q => if s = "" then vStr s else vNum q
        | none => vStr s
  | v => v

/-- The scope object `{...context.state}` handed to evaluated rule text
(the injected `Math`/`Number`/`now`/`uuid` helpers live behind the
oracle). -/
def spreadState : Val → Val
  | vObj kvs => vObj kvs
  | _ => vObj []

/-- One `RULE_APPLICATOR` assignment (source 193-255, inside the `try`):
resolve the expression (template via the oracle, literal conversion
otherwise) and write it at `fieldPath`; any thrown error is caught by the
caller.  Returns the resolved value and the updated record. -/
def applyAssignment (eval : EvalFn) (state : Val) (fieldPath : String) (expr : Val) :
    Except String (Val × Val) :=
  let valE : Except String Val :=
    match expr with
    | vStr s =>
        if isTemplate s then eval (templateBody s) (spreadState state)
        else .ok (convertLiteral expr)
    | _ => .ok (convertLiteral expr)
  match valE with
  | .error e => .error e
  | .ok value =>
      match jsNavWrite (some state) (jsSplit '.' fieldPath) value with
      | .ok st' => .ok (value, st'.getD state)
      | .error e => .error e

/-- The assignment loop of `RULE_APPLICATOR`: on the first failing
assignment it stops and returns the error output (naming the failing
field), keeping all earlier writes; otherwise it accumulates `updates`
and `results`. -/
def assignLoop (eval : EvalFn) (ruleId priority : Option Val)
    (updates : List Val) (results : List (String × Val)) (state : Val) :
    List (String × Val) → Val × Val
  | [] =>
      (mkObj [("success", some (vBool true)), ("ruleId", ruleId),
              ("priority", priority),
              ("updatesApplied", some (vNum updates.length)),
              ("updates", some (vArr updates)),
              ("results", some (vObj results))], state)
  | (fieldPath, expr) :: rest =>
      match applyAssignment eval state fieldPath expr with
      | .ok (value, st') =>
          assignLoop eval ruleId priority
            (updates ++ [vObj [("field", vStr fieldPath), ("value", value)]])
            (objSet results fieldPath value) st' rest
      | .error m =>
          (mkObj [("error", some (vStr ("Assignment failed for " ++ fieldPath ++ ": " ++ m))),
                  ("expression", some expr),
                  ("fieldPath", some (vStr fieldPath)),
                  ("ruleId", ruleId)], state)

/-- `RULE_APPLICATOR` (source 153-265).  Disabled rules and unmet
conditions return skip results without touching state; a condition
evaluation error returns an error result; otherwise the assignments are
applied in order with per-assignment error capture. -/
def ruleApplicator (eval : EvalFn) (input : Val) (state : Val) : Val × Val :=
  let ruleId := getField input "ruleId"
  let condition := getField input "condition"
  let priority := getField input "priority"
  if ¬ jsTruthyO (getField input "enabled") then
    (mkObj [("skipped", some (vBool true)), ("reason", some (vStr "Rule disabled")),
            ("ruleId", ruleId)], state)
  else
    let condIsLiteralTrue : Bool :=
      match condition with
      | some (vStr s) => s = "true"
      | _ => false
    let condResult : Except String Bool :=
      if jsTruthyO condition && !condIsLiteralTrue then
        match eval (jsToStringO condition) (spreadState state) with
        | .ok v => .ok (jsTruthy v)
        | .error m => .error m
      else .ok true
    match condResult with
    | .error m =>
        (mkObj [("error", some (vStr ("Condition evaluation failed: " ++ m))),
                ("condition", condition), ("ruleId", ruleId)], state)
    | .ok false =>
        (mkObj [("skipped", some (vBool true)), ("reason", some (vStr "Condition not met")),
                ("condition", condition), ("ruleId", ruleId)], state)
    | .ok true =>
        let assignments :=
          match getField input "assignments" with
          | some a => if jsTruthy a then a else vObj []
          | none => vObj []
        assignLoop eval ruleId priority [] [] state (jsEntries assignments)

/-- Registered primitive names (the keys of `PrimitiveLibrary`). -/
def isKnownPrimitive (name : String) : Bool :=
  name = "CONDITION_EVALUATOR" || name = "EXPRESSION_EVALUATOR" ||
  name = "STATE_MUTATOR" || name = "COMPOSITE_SCORER" || name = "RULE_APPLICATOR"

/-- Dispatch `PrimitiveLibrary[name](input, context)` for a known name:
the output together with the (possibly mutated) record; `Except.error` is
an uncaught exception escaping the primitive. -/
def callPrimitive (eval : EvalFn) (name : String) (input : Val) (state : Val) :
    Except String (Val × Val) :=
  if name = "CONDITION_EVALUATOR" then .ok (condEvaluator eval input, state)
  else if name = "EXPRESSION_EVALUATOR" then .ok (exprEvaluator eval input, state)
  else if name = "STATE_MUTATOR" then stateMutator input state
  else if name = "COMPOSITE_SCORER" then (compositeScorer input).map (fun o => (o, state))
  else .ok (ruleApplicator eval input state)

/-- One declarative step of a Plan (§3 of the spec). -/
structure Step where
  id : String
  primitive : String
  input_fields : List String
  output_fields : List String
  params : List (String × Val)

/-- Engine configuration: the halt-on-violation flag and the external
invariant binding table (`invariantSchema.contracts.primitiveBindings`).
The source also accepts `collectAllViolations` (parsed but never read) and
a log level (console output only); neither affects run semantics. -/
structure Config where
  haltOnError : Bool
  bindings : List (String × List String)

/-- The ambient environment of one execution: the dynamic-expression
oracle plus the streams feeding `crypto.randomUUID()` and
`new Date().toISOString()` (drawn by an internal counter in call order). -/
structure Env where
  evalExpr : EvalFn
  uuids : Nat → String
  times : Nat → String

/-- A violation record (source 402-410); the constant
`type: "InvariantViolation"` is materialized in its serialization. -/
structure Violation where
  tick : Nat
  primitive : String
  message : String
  inputSample : Val
  outputSample : Option Val
  timestamp : String

/-- A ledger entry's payload: a step's input/output pair, or a recorded
violation. -/
inductive Payload where
  | pStep (input output : Val)
  | pViol (v : Violation)

/-- A ledger entry (source 482-488 and 421-427). -/
structure LedgerEntry where
  id : String
  timestamp : String
  operation : String
  payload : Payload
  hash : String

/-- The mutable engine state of one run (the private fields of
`KernRuntime`, source 278-288, plus the environment draw counter). -/
structure RunState where
  state : Val
  tick : Nat
  ledger : List LedgerEntry
  auditTrail : List Violation
  invariantViolations : Nat
  checksPassed : Nat
  primitiveCounts : List (String × Nat)
  violationsByType : List (String × Nat)
  ctr : Nat

/-- The modelled `sha256(JSON.stringify(x))` (source 66-68): deterministic
pure function of the payload, collision-freeness idealized by using the
serialization itself. -/
def hashState (v : Val) : String := stringify v

/-- A violation as the JS object that gets serialized and hashed. -/
def violVal (v : Violation) : Val :=
  mkObj [("tick", some (vNum v.tick)),
         ("primitive", some (vStr v.primitive)),
         ("type", some (vStr "InvariantViolation")),
         ("message", some (vStr v.message)),
         ("inputSample", some v.inputSample),
         ("outputSample", v.outputSample),
         ("timestamp", some (vStr v.timestamp))]

/-- `sampleData` (source 430-440): falsy and non-object data pass through,
objects are cut to their first three keys.  (An array would become a plain
object of its first three indices in JS; primitive outputs are never
arrays, so the array case is approximated structurally.) -/
def sampleData : Val → Val
  | vObj kvs => vObj (kvs.take 3)
  | vArr l => vArr (l.take 3)
  | v => v

/-- The normalized violation-type label: text before the first colon,
trimmed (source 416). -/
def violationType (message : String) : String :=
  jsTrim ((jsSplit ':' message).headD message)

/-- `(map[k] || 0) + 1` over an insertion-ordered counter table. -/
def bumpCount : List (String × Nat) → String → List (String × Nat)
  | [], k => [(k, 1)]
  | (k', n) :: rest, k =>
      if k' = k then (k, n + 1) :: rest else (k', n) :: bumpCount rest k

/-- The violation object built by `recordViolation` (source 402-410). -/
def mkViolation (env : Env) (rs : RunState) (message primitive : String)
    (input : Val) (output : Option Val) : Violation :=
  { tick := rs.tick, primitive := primitive, message := message,
    inputSample := sampleData input, outputSample := output.map sampleData,
    timestamp := env.times rs.ctr }

/-- The `VIOLATION_RECORDED` ledger entry for a violation (source
421-427). -/
def mkViolEntry (env : Env) (rs : RunState) (v : Violation) : LedgerEntry :=
  { id := env.uuids (rs.ctr + 1), timestamp := env.times (rs.ctr + 2),
    operation := "VIOLATION_RECORDED", payload := .pViol v,
    hash := hashState (violVal v) }

/-- `KernRuntime.recordViolation` (source 401-428): push the violation to
the audit trail, bump the counter and the per-type counter, and append a
`VIOLATION_RECORDED` ledger entry hashing the violation payload. -/
def recordViolation (env : Env) (rs : RunState) (message primitive : String)
    (input : Val) (output : Option Val) : RunState :=
  let v := mkViolation env rs message primitive input output
  { rs with
    auditTrail := rs.auditTrail ++ [v],
    invariantViolations := rs.invariantViolations + 1,
    violationsByType := bumpCount rs.violationsByType (violationType message),
    ledger := rs.ledger ++ [mkViolEntry env rs v],
    ctr := rs.ctr + 3 }

/-- `KernRuntime.appendLedgerEntry` (source 481-490): one entry per
executed step, hashing the `{input, output}` payload. -/
def appendLedgerEntry (env : Env) (rs : RunState) (primitive : String)
    (input output : Val) : RunState :=
  { rs with
    ledger := rs.ledger ++
      [{ id := env.uuids rs.ctr, timestamp := env.times (rs.ctr + 1),
         operation := primitive, payload := .pStep input output,
         hash := hashState (vObj [("input", input), ("output", output)]) }],
    ctr := rs.ctr + 2 }

/-- The `!output || (typeof output === 'object' && keys.length === 0)`
test of the empty-output structural check. -/
def emptyOutputCheck (output : Val) : Bool :=
  !jsTruthy output ||
    (match output with
     | vObj kvs => kvs.isEmpty
     | vArr l => l.isEmpty
     | _ => false)

/-- The `typeof output.normalized_score === 'number' &&
Number.isNaN(output.normalized_score)` test (source 444). -/
def isNaNScore (output : Val) : Bool :=
  match getField output "normalized_score" with
  | some vNaN => true
  | _ => false

/-- Structural check 1 (source 443-446): NaN normalized score. -/
def applyNaNCheck (env : Env) (rs : RunState) (primitive : String)
    (output input : Val) : RunState :=
  if isNaNScore output then
    recordViolation env rs "NaN normalized_score detected" primitive input (some output)
  else rs

/-- Structural check 2 (source 448-451): absent or empty output. -/
def applyEmptyCheck (env : Env) (rs : RunState) (primitive : String)
    (output input : Val) : RunState :=
  if emptyOutputCheck output then
    recordViolation env rs "Empty output object" primitive input (some output)
  else rs

/-- Structural check 3 (source 453-456): truthy `error` field. -/
def applyErrCheck (env : Env) (rs : RunState) (primitive : String)
    (output input : Val) : RunState :=
  if jsTruthyO (getField output "error") then
    recordViolation env rs ("Primitive error: " ++ jsToStringO (getField output "error"))
      primitive input (some output)
  else rs

/-- `KernRuntime.runCustomInvariants` (source 442-457): the three fixed
structural checks, run in source order (NaN score, empty output, error
field). -/
def runCustomInvariants (env : Env) (rs : RunState) (primitive : String)
    (output input : Val) : RunState :=
  applyErrCheck env
    (applyEmptyCheck env
      (applyNaNCheck env rs primitive output input) primitive output input)
    primitive output input

/-- `KernRuntime.runInvariant` (source 492-496): the two named bound-check
predicates; unknown names pass. -/
def runInvariant (name : String) (output : Val) : Bool :=
  if name = "stateProgress" &&
      (match getField output "success" with | some (vBool false) => true | _ => false) then
    false
  else if name = "consistencyCheck" && (getField output "newValue").isNone then
    false
  else true

/-- The bound-check loop (source 351-360): a failing check bumps the
violation counter directly *and* records a violation (which bumps it
again); a passing check bumps `checksPassed`. -/
def runBoundChecks (env : Env) (primitive : String) (input output : Val) :
    RunState → List String → RunState
  | rs, [] => rs
  | rs, check :: rest =>
      if runInvariant check output then
        runBoundChecks env primitive input output
          { rs with checksPassed := rs.checksPassed + 1 } rest
      else
        runBoundChecks env primitive input output
          (recordViolation env { rs with invariantViolations := rs.invariantViolations + 1 }
            ("Schema invariant failed: " ++ check) primitive input (some output)) rest

/-- The binding table lookup `this.invariantBindings[step.primitive] || []`. -/
def lookupBindings (cfg : Config) (name : String) : List String :=
  match cfg.bindings.find? (fun p => p.1 = name) with
  | some p => p.2
  | none => []

/-- Resolved input fields merged with static params (source 324-328):
`inputs[f] = resolve(f)` for each declared field, then
`{...inputs, ...params}` (params win on collision; fields resolving to
`undefined` are omitted, cf. the modelling conventions). -/
def combinedInput (state : Val) (st : Step) : Val :=
  let inputs := st.input_fields.foldl
    (fun acc f => match resolve state f with
      | some v => objSet acc f v
      | none => acc) []
  vObj (st.params.foldl (fun acc p => objSet acc p.1 p.2) inputs)

/-- `KernRuntime.applyOutputs` (source 474-479): for each declared output
field, read the last path segment's key from the output object and, if
defined, write it at the field path via the unguarded `set` loop (which
can throw, aborting the run). -/
def applyOutputs (output : Val) : List String → Val → Except String Val
  | [], state => .ok state
  | field :: rest, state =>
      let key := (jsSplit '.' field).getLastD ""
      match getField output key with
      | some v =>
          match jsNavWrite (some state) (jsSplit '.' field) v with
          | .ok st' => applyOutputs output rest (st'.getD state)
          | .error e => .error e
      | none => applyOutputs output rest state

/-- The synthetic-violation tag check of the loop body (source 332-340):
a truthy `_violation` key in the output records a violation. -/
def synViolationCheck (env : Env) (rs : RunState) (primitive : String)
    (input output : Val) : RunState :=
  if jsTruthyO (getField output "_violation") then
    recordViolation env rs
      ("Synthetic violation: " ++ jsToStringO (getField output "_violation"))
      primitive input (some output)
  else rs

/-- The loop body after the primitive call succeeded (source 332-377):
synthetic-violation check, structural checks, output application (which
may throw), counters, bound checks, the step's ledger entry, and the
halt-on-violation break flag. -/
def runStepRest (cfg : Config) (env : Env) (rs0 : RunState) (st : Step)
    (input output st1 : Val) : Except String (RunState × Bool) :=
  let rs := synViolationCheck env { rs0 with state := st1 } st.primitive input output
  let rs := runCustomInvariants env rs st.primitive output input
  match applyOutputs output st.output_fields rs.state with
  | .error e => .error e
  | .ok st2 =>
      let rs := { rs with state := st2 }
      let rs := { rs with primitiveCounts := bumpCount rs.primitiveCounts st.primitive }
      let rs := runBoundChecks env st.primitive input output rs (lookupBindings cfg st.primitive)
      let rs := appendLedgerEntry env rs st.primitive input output
      .ok (rs, cfg.haltOnError && rs.invariantViolations > 0)

/-- One iteration of the execution loop (source 314-377).  Returns the
updated run state and whether the loop breaks (`haltOnError` handling);
`Except.error` is an uncaught exception aborting `execute`. -/
def runStep (cfg : Config) (env : Env) (rs0 : RunState) (st : Step) :
    Except String (RunState × Bool) :=
  let rs := { rs0 with tick := rs0.tick + 1 }
  if isKnownPrimitive st.primitive then
    let input := combinedInput rs.state st
    match callPrimitive env.evalExpr st.primitive input rs.state with
    | .error e => .error e
    | .ok (output, st1) => runStepRest cfg env rs st input output st1
  else
    let rs := recordViolation env rs ("Unknown primitive: " ++ st.primitive)
      st.primitive (vObj []) none
    .ok (rs, cfg.haltOnError)

/-- The `for (const step of plan)` loop with `break`/`continue` folded
into the per-step break flag. -/
def runLoop (cfg : Config) (env : Env) : RunState → List Step → Except String RunState
  | rs, [] => .ok rs
  | rs, st :: rest =>
      match runStep cfg env rs st with
      | .error e => .error e
      | .ok (rs', halted) => if halted then .ok rs' else runLoop cfg env rs' rest

/-- Fresh run state over a deep copy of the caller's initial record
(source 307). -/
def initState (init : Val) : RunState :=
  { state := deepClone init, tick := 0, ledger := [], auditTrail := [],
    invariantViolations := 0, checksPassed := 0, primitiveCounts := [],
    violationsByType := [], ctr := 0 }

/-- `KernRuntime.execute` (source 306-399) for a Plan (already reduced to
its ordered step list): the final run state carries everything the
returned result object exposes. -/
def execute (cfg : Config) (env : Env) (plan : List Step) (init : Val) :
    Except String RunState :=
  runLoop cfg env (initState init) plan

/-- `proof.finalHash` (source 393). -/
def finalHash (rs : RunState) : String := hashState rs.state

/-- `proof.outcome` (source 396). -/
def outcome (rs : RunState) : String :=
  if rs.invariantViolations > 0 then "violations_detected" else "clean_execution"

/-! ## Basic lemmas about the value model -/

mutual

/-- `deepClone` is the identity on NaN-free values (JSON round-tripping
only disturbs `NaN`, which serializes as `null`). -/
theorem deepClone_id : ∀ v : Val, hasNaN v = false → deepClone v = v
  | vStr _, _ => rfl
  | vNum _, _ => rfl
  | vNaN, h => by simp [hasNaN] at h
  | vBool _, _ => rfl
  | vNull, _ => rfl
  | vArr l, h => by
      simp only [hasNaN] at h
      simp only [deepClone, deepCloneArr_id l h]
  | vObj kvs, h => by
      simp only [hasNaN] at h
      simp only [deepClone, deepCloneObj_id kvs h]

/-- `deepClone` identity, array elements. -/
theorem deepCloneArr_id : ∀ l : List Val, hasNaNArr l = false → deepCloneArr l = l
  | [], _ => rfl
  | v :: rest, h => by
      simp only [hasNaNArr, Bool.or_eq_false_iff] at h
      simp only [deepCloneArr, deepClone_id v h.1, deepCloneArr_id rest h.2]

/-- `deepClone` identity, object entries. -/
theorem deepCloneObj_id : ∀ kvs : List (String × Val), hasNaNObj kvs = false → deepCloneObj kvs = kvs
  | [], _ => rfl
  | (k, v) :: rest, h => by
      simp only [hasNaNObj, Bool.or_eq_false_iff] at h
      simp only [deepCloneObj, deepClone_id v h.1, deepCloneObj_id rest h.2]

end

/-- Reading back the key just written. -/
theorem objGet_objSet_self (kvs : List (String × Val)) (k : String) (v : Val) :
    objGet (objSet kvs k v) k = some v := by
  induction kvs with
  | nil => simp [objGet, objSet]
  | cons p rest ih =>
      obtain ⟨k', v'⟩ := p
      by_cases h : k' = k
      · subst h; simp [objGet, objSet]
      · simp [objGet, objSet, h, ih]

/-- Writing one key leaves the others unchanged. -/
theorem objGet_objSet_other (kvs : List (String × Val)) (k k' : String) (v : Val)
    (h : k' ≠ k) : objGet (objSet kvs k v) k' = objGet kvs k' := by
  have hne : ¬ k = k' := fun e => h e.symm
  induction kvs with
  | nil => simp only [objSet, objGet, if_neg hne]
  | cons p rest ih =>
      obtain ⟨k0, v0⟩ := p
      by_cases h0 : k0 = k
      · subst h0
        simp only [objSet, if_pos rfl, objGet, if_neg hne]
      · simp only [objSet, if_neg h0, objGet]
        by_cases h1 : k0 = k'
        · simp [h1]
        · simp [h1, ih]

/-- Under the `writeOk` precondition, the navigation write succeeds and
the written value can be read back along the same path. -/
theorem jsNavWrite_writeOk : ∀ (keys : List String) (v value : Val),
    writeOk v keys = true →
    ∃ w, jsNavWrite (some v) keys value = .ok (some w) ∧ readPath w keys = some value
  | [], v, value, h => by simp [writeOk] at h
  | [k], v, value, h => by
      match v with
      | vObj kvs =>
          refine ⟨vObj (objSet kvs k value), rfl, ?_⟩
          simp [readPath, objGet_objSet_self]
      | vStr _ | vNum _ | vNaN | vBool _ | vNull | vArr _ => simp [writeOk] at h
  | k :: k' :: rest, v, value, h => by
      match v with
      | vObj kvs =>
          simp only [writeOk] at h
          split at h
          · rename_i c hg
            split at h
            · rename_i ht
              obtain ⟨w, hw, hr⟩ := jsNavWrite_writeOk (k' :: rest) c value h
              refine ⟨vObj (objSet kvs k w), ?_, ?_⟩
              · simp [jsNavWrite, hg, ht, hw]
              · simp [readPath, objGet_objSet_self, hr]
            · rename_i ht
              obtain ⟨w, hw, hr⟩ := jsNavWrite_writeOk (k' :: rest) (vObj []) value h
              refine ⟨vObj (objSet kvs k w), ?_, ?_⟩
              · simp [jsNavWrite, hg, ht, hw]
              · simp [readPath, objGet_objSet_self, hr]
          · rename_i hg
            obtain ⟨w, hw, hr⟩ := jsNavWrite_writeOk (k' :: rest) (vObj []) value h
            refine ⟨vObj (objSet kvs k w), ?_, ?_⟩
            · simp [jsNavWrite, hg, hw]
            · simp [readPath, objGet_objSet_self, hr]
      | vStr _ | vNum _ | vNaN | vBool _ | vNull | vArr _ => simp [writeOk] at h

/-! ## Concrete fixtures for counterexamples and witnesses -/

/-- An environment whose oracle is never consulted; decorative streams are
constant. -/
def trivialEnv : Env :=
  { evalExpr := fun _ _ => .error "not used", uuids := fun _ => "uuid-0",
    times := fun _ => "t0" }

/-- Continue-on-error configuration, empty binding table. -/
def cfgPlain : Config := { haltOnError := false, bindings := [] }

/-- Halt-on-violation configuration, empty binding table. -/
def cfgHalt : Config := { haltOnError := true, bindings := [] }

/-- One composite-scorer step with `scores: []` and no output fields
(spec §8, Example 2). -/
def scorerEmptyStep (sid : String) : Step :=
  { id := sid, primitive := "COMPOSITE_SCORER", input_fields := [], output_fields := [],
    params := [("scores", vArr [])] }

/-! ## C3 — composite scorer on an empty scores array -/

/-- **C3, counterexample.**  The claim says the run's final violation
count is exactly 1.  In the code the empty-scores output
`{normalized_score: NaN, _violation: "empty_scores_array"}` is counted
twice: once for the synthetic `_violation` tag (execute, source 333-340)
and once by the fixed NaN structural check (`runCustomInvariants`, source
444-446).  Running the one-step plan from the empty record yields
violation count 2, not 1 (the record is indeed unchanged). -/
theorem c3_counterexample :
    (execute cfgPlain trivialEnv [scorerEmptyStep "s1"] (vObj [])).map
        (fun r => (r.invariantViolations, stringify r.state)) =
      .ok (2, lb ++ rb) := by
  rfl

/-- **C3, amended.**  For the one-step empty-scores composite-scorer plan
(no bound checks configured for the scorer), the step's output is tagged
with the `empty_scores_array` synthetic violation and the NaN structural
check also fires, so the run records exactly the two violation messages
`Synthetic violation: empty_scores_array` and
`NaN normalized_score detected`; the final violation count is 2, and the
final record equals the initial record (for any NaN-free initial record —
the engine's JSON deep copy rewrites `NaN` to `null`). -/
theorem c3_amended (cfg : Config) (env : Env) (init : Val) (sid : String)
    (hb : lookupBindings cfg "COMPOSITE_SCORER" = [])
    (hN : hasNaN init = false) :
    (execute cfg env [scorerEmptyStep sid] init).map
        (fun r => (r.state, r.invariantViolations, r.tick,
                   r.auditTrail.map (fun v => v.message))) =
      .ok (init, 2, 1,
           ["Synthetic violation: empty_scores_array", "NaN normalized_score detected"]) := by
  simp [execute, runLoop, runStep, runStepRest, synViolationCheck, initState,
    isKnownPrimitive, combinedInput,
    callPrimitive, compositeScorer, scorerEmptyStep, getField, objGet, objSet,
    jsTruthy, jsTruthyO, runCustomInvariants, applyNaNCheck, applyEmptyCheck,
    applyErrCheck, isNaNScore, recordViolation, mkViolation,
    mkViolEntry, emptyOutputCheck, applyOutputs, runBoundChecks, hb,
    appendLedgerEntry, bumpCount, sampleData, violationType, jsToStringO,
    jsToString, Except.map, deepClone_id init hN]

/-- **C3, witness** for the amended theorem at a concrete input. -/
theorem c3_witness :
    (execute cfgPlain trivialEnv [scorerEmptyStep "s1"] (vObj [("k", vNum 1)])).map
        (fun r => (r.state, r.invariantViolations, r.tick,
                   r.auditTrail.map (fun v => v.message))) =
      .ok (vObj [("k", vNum 1)], 2, 1,
           ["Synthetic violation: empty_scores_array", "NaN normalized_score detected"]) :=
  c3_amended cfgPlain trivialEnv (vObj [("k", vNum 1)]) "s1" rfl rfl

/-! ## C4 — the state mutator's three branches -/

/-- The mutator's path validation, as a predicate: `some s` iff
`input.path` is a truthy string (`!path || typeof path !== "string"`
fails). -/
def mutPathStr (input : Val) : Option String :=
  match getField input "path" with
  | some (vStr s) => if s = "" then none else some s
  | _ => none

/-- **C4, counterexample.**  The claim's third branch says a valid
path/value call "writes value at path (creating intermediate mapping
nodes as needed) and returns `{success:true, ...}`".  With record
`{a: 5}` and path `"a.b.c"` the write loop walks into the number `5`,
reads `undefined`, and the final assignment throws a `TypeError` that
escapes the primitive — no success result, no write. -/
theorem c4_counterexample :
    stateMutator (vObj [("path", vStr "a.b.c"), ("value", vNum 1)]) (vObj [("a", vNum 5)]) =
      .error "TypeError: cannot set properties of undefined" := rfl

/-- **C4, amended.**  The state mutator behaves as claimed with one
proviso on the third branch: a missing/non-string/empty path returns
`{success:false, message}` with the record untouched; a `null`/absent
value returns the `empty_output_detected`-tagged failure with the record
untouched; and — provided every truthy value already sitting at a proper
prefix of the path is a mapping (`writeOk`) — a valid call writes the
value at the path (creating intermediate mapping nodes as needed) and
returns `{success:true, updatedPath, newValue}`.  Without the proviso the
write can silently miss (two segments) or throw (three or more). -/
theorem c4_state_mutator_amended (state input : Val) :
    (mutPathStr input = none →
      stateMutator input state =
        .ok (vObj [("success", vBool false), ("message", vStr "Invalid or missing path")],
             state))
  ∧ (∀ s, mutPathStr input = some s →
      (getField input "value" = none ∨ getField input "value" = some vNull) →
      stateMutator input state =
        .ok (vObj [("success", vBool false), ("_violation", vStr "empty_output_detected")],
             state))
  ∧ (∀ s v, mutPathStr input = some s → getField input "value" = some v → v ≠ vNull →
      writeOk state (jsSplit '.' s) = true →
      ∃ w, stateMutator input state =
          .ok (vObj [("success", vBool true), ("updatedPath", vStr s), ("newValue", v)], w) ∧
        readPath w (jsSplit '.' s) = some v) := by
  refine ⟨?_, ?_, ?_⟩
  · intro h
    cases hp : getField input "path" with
    | none => simp [stateMutator, hp]
    | some pv =>
        cases pv with
        | vStr s =>
            have hs : s = "" := by
              by_cases hse : s = ""
              · exact hse
              · exfalso; simp [mutPathStr, hp, hse] at h
            subst hs
            simp [stateMutator, hp]
        | vNum q => simp [stateMutator, hp]
        | vNaN => simp [stateMutator, hp]
        | vBool b => simp [stateMutator, hp]
        | vNull => simp [stateMutator, hp]
        | vArr l => simp [stateMutator, hp]
        | vObj kvs => simp [stateMutator, hp]
  · intro s h hv
    obtain ⟨s0, hp, hs0⟩ : ∃ s0, getField input "path" = some (vStr s0) ∧ s0 = s ∧ s0 ≠ "" := by
      cases hp : getField input "path" with
      | none => simp [mutPathStr, hp] at h
      | some pv =>
          cases pv with
          | vStr s0 =>
              by_cases hse : s0 = ""
              · simp [mutPathStr, hp, hse] at h
              · simp [mutPathStr, hp, hse] at h
                exact ⟨s0, rfl, h, hse⟩
          | vNum q => simp [mutPathStr, hp] at h
          | vNaN => simp [mutPathStr, hp] at h
          | vBool b => simp [mutPathStr, hp] at h
          | vNull => simp [mutPathStr, hp] at h
          | vArr l => simp [mutPathStr, hp] at h
          | vObj kvs => simp [mutPathStr, hp] at h
    obtain ⟨hs, hne⟩ := hs0
    subst hs
    cases hv with
    | inl hnone => simp [stateMutator, hp, hne, hnone]
    | inr hnull => simp [stateMutator, hp, hne, hnull]
  · intro s v h hv hvn hw
    obtain ⟨s0, hp, hs0⟩ : ∃ s0, getField input "path" = some (vStr s0) ∧ s0 = s ∧ s0 ≠ "" := by
      cases hp : getField input "path" with
      | none => simp [mutPathStr, hp] at h
      | some pv =>
          cases pv with
          | vStr s0 =>
              by_cases hse : s0 = ""
              · simp [mutPathStr, hp, hse] at h
              · simp [mutPathStr, hp, hse] at h
                exact ⟨s0, rfl, h, hse⟩
          | vNum q => simp [mutPathStr, hp] at h
          | vNaN => simp [mutPathStr, hp] at h
          | vBool b => simp [mutPathStr, hp] at h
          | vNull => simp [mutPathStr, hp] at h
          | vArr l => simp [mutPathStr, hp] at h
          | vObj kvs => simp [mutPathStr, hp] at h
    obtain ⟨hs, hne⟩ := hs0
    subst hs
    obtain ⟨w, hnav, hread⟩ := jsNavWrite_writeOk (jsSplit '.' s0) state v hw
    refine ⟨w, ?_, hread⟩
    cases v with
    | vNull => exact absurd rfl hvn
    | vStr a => simp [stateMutator, hp, hne, hv, hnav]
    | vNum a => simp [stateMutator, hp, hne, hv, hnav]
    | vNaN => simp [stateMutator, hp, hne, hv, hnav]
    | vBool a => simp [stateMutator, hp, hne, hv, hnav]
    | vArr a => simp [stateMutator, hp, hne, hv, hnav]
    | vObj a => simp [stateMutator, hp, hne, hv, hnav]

/-- **C4, witness** for the amended theorem: writing `5` at `"a.b"` in the
empty record succeeds and reads back. -/
theorem c4_witness :
    ∃ w, stateMutator (vObj [("path", vStr "a.b"), ("value", vNum 5)]) (vObj []) =
        .ok (vObj [("success", vBool true), ("updatedPath", vStr "a.b"),
                   ("newValue", vNum 5)], w) ∧
      readPath w (jsSplit '.' "a.b") = some (vNum 5) :=
  (c4_state_mutator_amended (vObj []) (vObj [("path", vStr "a.b"), ("value", vNum 5)])).2.2
    "a.b" (vNum 5) rfl rfl (fun h => Val.noConfusion h) rfl

/-! ## C6 — output-field application -/

/-- The last segment of a dotted output-field path
(`field.split(".").pop()`). -/
def lastSeg (f : String) : String := (jsSplit '.' f).getLastD ""

/-- **C6, counterexample.**  The claim says applying output fields copies
the last-segment key into the record at the declared path (or leaves the
record untouched if absent).  With record `{a: 5}`, field `"a.b.c"` and
output `{c: 7}` the unguarded `set` loop throws a `TypeError` instead —
nothing is copied and the whole run would abort. -/
theorem c6_counterexample :
    applyOutputs (vObj [("c", vNum 7)]) ["a.b.c"] (vObj [("a", vNum 5)]) =
      .error "TypeError: cannot set properties of undefined" := rfl

/-- **C6, amended.**  Output-field application behaves as claimed with a
traversability proviso: a field whose last-segment key is absent from the
output leaves the record untouched; a field whose key is present copies
exactly that value to the declared path provided every truthy value at a
proper prefix of the path is a mapping (`writeOk`); and the fields of a
step are applied left to right, each on the record produced by the
previous one. -/
theorem c6_apply_outputs_amended (output state : Val) (f : String) :
    (getField output (lastSeg f) = none → applyOutputs output [f] state = .ok state)
  ∧ (∀ v, getField output (lastSeg f) = some v → writeOk state (jsSplit '.' f) = true →
      ∃ w, applyOutputs output [f] state = .ok w ∧ readPath w (jsSplit '.' f) = some v)
  ∧ (∀ fs, applyOutputs output (f :: fs) state =
      match applyOutputs output [f] state with
      | .ok st' => applyOutputs output fs st'
      | .error e => .error e) := by
  refine ⟨?_, ?_, ?_⟩
  · intro h
    simp [applyOutputs, lastSeg] at h ⊢
    simp [h]
  · intro v h hw
    obtain ⟨w, hnav, hread⟩ := jsNavWrite_writeOk (jsSplit '.' f) state v hw
    refine ⟨w, ?_, hread⟩
    simp [applyOutputs, lastSeg] at h ⊢
    simp [h, hnav]
  · intro fs
    simp only [applyOutputs]
    cases hk : getField output ((jsSplit '.' f).getLastD "") with
    | none => rfl
    | some v =>
        cases hnav : jsNavWrite (some state) (jsSplit '.' f) v with
        | error e => simp [hnav]
        | ok st' => simp [hnav]

/-- **C6, witness** for the amended theorem: copying key `"b"` of the
output to path `"a.b"` in the empty record. -/
theorem c6_witness :
    ∃ w, applyOutputs (vObj [("b", vNum 7)]) ["a.b"] (vObj []) = .ok w ∧
      readPath w (jsSplit '.' "a.b") = some (vNum 7) :=
  (c6_apply_outputs_amended (vObj [("b", vNum 7)]) (vObj []) "a.b").2.1
    (vNum 7) rfl rfl

/-! ## C8 — exceptions escaping a primitive -/

/-- The one-step plan driving the mutator into its unguarded traversal. -/
def mutatorDeepStep : Step :=
  { id := "m-deep", primitive := "STATE_MUTATOR", input_fields := [], output_fields := [],
    params := [("path", vStr "a.b.c"), ("value", vNum 1)] }

/-- **C8, code bug.**  The spec promises that primitives never raise past
their boundary for expected failure modes and that an invalid mutation
target yields `success:false`; `RULE_APPLICATOR` indeed wraps the very
same navigation loop in `try/catch`.  But `STATE_MUTATOR`'s loop is
unguarded: on record `{a: 5}` with path `"a.b.c"` the `TypeError` escapes
the primitive and aborts the whole run (both the primitive-level call and
the full `execute` end in the error). -/
theorem c8_mutator_throws :
    stateMutator (vObj [("path", vStr "a.b.c"), ("value", vNum 1)]) (vObj [("a", vNum 5)]) =
        .error "TypeError: cannot set properties of undefined"
  ∧ execute cfgPlain trivialEnv [mutatorDeepStep] (vObj [("a", vNum 5)]) =
        .error "TypeError: cannot set properties of undefined" :=
  ⟨rfl, rfl⟩

/-! ## C7 — unknown primitive -/

/-- **C7, confirmed.**  A step naming an unregistered primitive records a
violation with message `Unknown primitive: <name>` instead of crashing,
appends only the violation's own ledger entry (no step entry), leaves the
record unchanged, and the loop continues with the remaining steps when
halt-on-violation is disabled or stops right there when it is enabled. -/
theorem c7_unknown_primitive (cfg : Config) (env : Env) (rs : RunState) (st : Step)
    (rest : List Step) (h : isKnownPrimitive st.primitive = false) :
    ∃ rs', runStep cfg env rs st = .ok (rs', cfg.haltOnError)
      ∧ rs'.state = rs.state
      ∧ rs'.tick = rs.tick + 1
      ∧ rs'.auditTrail = rs.auditTrail ++
          [{ tick := rs.tick + 1, primitive := st.primitive,
             message := "Unknown primitive: " ++ st.primitive,
             inputSample := vObj [], outputSample := none,
             timestamp := env.times rs.ctr }]
      ∧ (∃ entry, rs'.ledger = rs.ledger ++ [entry] ∧ entry.operation = "VIOLATION_RECORDED")
      ∧ rs'.invariantViolations = rs.invariantViolations + 1
      ∧ (cfg.haltOnError = false → runLoop cfg env rs (st :: rest) = runLoop cfg env rs' rest)
      ∧ (cfg.haltOnError = true → runLoop cfg env rs (st :: rest) = .ok rs') := by
  refine ⟨recordViolation env { rs with tick := rs.tick + 1 }
    ("Unknown primitive: " ++ st.primitive) st.primitive (vObj []) none,
    ?_, ?_, ?_, ?_, ⟨_, rfl, rfl⟩, ?_, ?_, ?_⟩
  · simp [runStep, h]
  · simp [recordViolation]
  · simp [recordViolation]
  · simp [recordViolation, mkViolation, sampleData]
  · simp [recordViolation]
  · intro hoff
    simp [runLoop, runStep, h, hoff]
  · intro hon
    simp [runLoop, runStep, h, hon]

/-- **C7, witness**: a one-unknown-step plan followed by one more step,
halt disabled, evaluated at the empty record. -/
theorem c7_witness :
    ∃ rs', runStep cfgPlain trivialEnv (initState (vObj []))
        { id := "u1", primitive := "NOPE", input_fields := [], output_fields := [], params := [] }
        = .ok (rs', cfgPlain.haltOnError)
      ∧ rs'.state = (initState (vObj [])).state
      ∧ rs'.tick = (initState (vObj [])).tick + 1
      ∧ rs'.auditTrail = (initState (vObj [])).auditTrail ++
          [{ tick := (initState (vObj [])).tick + 1, primitive := "NOPE",
             message := "Unknown primitive: " ++ "NOPE",
             inputSample := vObj [], outputSample := none,
             timestamp := trivialEnv.times (initState (vObj [])).ctr }]
      ∧ (∃ entry, rs'.ledger = (initState (vObj [])).ledger ++ [entry] ∧
            entry.operation = "VIOLATION_RECORDED")
      ∧ rs'.invariantViolations = (initState (vObj [])).invariantViolations + 1
      ∧ (cfgPlain.haltOnError = false →
          runLoop cfgPlain trivialEnv (initState (vObj []))
            [{ id := "u1", primitive := "NOPE", input_fields := [], output_fields := [], params := [] },
             mutatorDeepStep] = runLoop cfgPlain trivialEnv rs' [mutatorDeepStep])
      ∧ (cfgPlain.haltOnError = true →
          runLoop cfgPlain trivialEnv (initState (vObj []))
            [{ id := "u1", primitive := "NOPE", input_fields := [], output_fields := [], params := [] },
             mutatorDeepStep] = .ok rs') :=
  c7_unknown_primitive cfgPlain trivialEnv (initState (vObj []))
    { id := "u1", primitive := "NOPE", input_fields := [], output_fields := [], params := [] }
    [mutatorDeepStep] rfl

/-! ## Step-effect accounting (shared by C2, C5, C10) -/

/-- Is a ledger entry a recorded violation (as opposed to a per-step
entry)? -/
def isViolEntry (e : LedgerEntry) : Bool :=
  match e.payload with
  | .pViol _ => true
  | .pStep _ _ => false

/-- Does a violation message come from a failing bound (schema) check?
Only the `runBoundChecks` call site produces messages with this prefix. -/
def isSchemaMsg (m : String) : Bool :=
  jsStartsWith "Schema invariant failed" m

/-- A `Schema invariant failed: <check>` message is schema-tagged. -/
theorem isSchemaMsg_schema (c : String) :
    isSchemaMsg ("Schema invariant failed: " ++ c) = true := rfl

/-- `Unknown primitive: <name>` messages are not schema-tagged. -/
theorem isSchemaMsg_unknown (s : String) :
    isSchemaMsg ("Unknown primitive: " ++ s) = false := rfl

/-- `Synthetic violation: <tag>` messages are not schema-tagged. -/
theorem isSchemaMsg_synthetic (s : String) :
    isSchemaMsg ("Synthetic violation: " ++ s) = false := rfl

/-- `Primitive error: <err>` messages are not schema-tagged. -/
theorem isSchemaMsg_primError (s : String) :
    isSchemaMsg ("Primitive error: " ++ s) = false := rfl

/-- The NaN structural-check message is not schema-tagged. -/
theorem isSchemaMsg_nan :
    isSchemaMsg "NaN normalized_score detected" = false := rfl

/-- The empty-output structural-check message is not schema-tagged. -/
theorem isSchemaMsg_empty :
    isSchemaMsg "Empty output object" = false := rfl

/-- `rs'` extends `rs` by the violations `vs` (and their ledger entries
`es`) without touching the tick, the record, or per-step ledger entries:
the bookkeeping shape shared by every violation-recording phase of a step.
The violation counter grows by one per violation plus one extra per
schema-tagged violation (the double count of failing bound checks). -/
def Extends (rs rs' : RunState) (vs : List Violation) (es : List LedgerEntry) : Prop :=
  rs'.tick = rs.tick
  ∧ rs'.auditTrail = rs.auditTrail ++ vs
  ∧ rs'.ledger = rs.ledger ++ es
  ∧ (∀ e ∈ es, isViolEntry e = true)
  ∧ es.length = vs.length
  ∧ (∀ v ∈ vs, v.tick = rs.tick)
  ∧ rs'.invariantViolations =
      rs.invariantViolations + vs.length + (vs.filter (fun v => isSchemaMsg v.message)).length

/-- Extending by nothing. -/
theorem Extends.refl (rs : RunState) : Extends rs rs [] [] := by
  refine ⟨rfl, by simp, by simp, by simp, by simp, by simp, by simp⟩

/-- Extension steps compose. -/
theorem Extends.trans {rs1 rs2 rs3 : RunState} {vs1 vs2 es1 es2}
    (h1 : Extends rs1 rs2 vs1 es1) (h2 : Extends rs2 rs3 vs2 es2) :
    Extends rs1 rs3 (vs1 ++ vs2) (es1 ++ es2) := by
  obtain ⟨t1, a1, l1, v1, n1, k1, i1⟩ := h1
  obtain ⟨t2, a2, l2, v2, n2, k2, i2⟩ := h2
  refine ⟨t2.trans t1, ?_, ?_, ?_, ?_, ?_, ?_⟩
  · rw [a2, a1, List.append_assoc]
  · rw [l2, l1, List.append_assoc]
  · intro e he
    rcases List.mem_append.mp he with h | h
    · exact v1 e h
    · exact v2 e h
  · simp [n1, n2]
  · intro v hv
    rcases List.mem_append.mp hv with h | h
    · exact k1 v h
    · exact (k2 v h).trans t1
  · rw [i2, i1]
    simp only [List.filter_append, List.length_append]
    ring

/-- Changing only the record (or other untracked fields) is an empty
extension. -/
theorem extends_setState (rs : RunState) (s : Val) :
    Extends rs { rs with state := s } [] [] := by
  refine ⟨rfl, by simp, by simp, by simp, by simp, by simp, by simp⟩

/-- Bumping the per-primitive counters is an empty extension. -/
theorem extends_setCounts (rs : RunState) (pc : List (String × Nat)) :
    Extends rs { rs with primitiveCounts := pc } [] [] := by
  refine ⟨rfl, by simp, by simp, by simp, by simp, by simp, by simp⟩

/-- `recordViolation` with a non-schema message extends by exactly that
violation. -/
theorem extends_recordViolation (env : Env) (rs : RunState) (m p : String)
    (i : Val) (o : Option Val) (hm : isSchemaMsg m = false) :
    Extends rs (recordViolation env rs m p i o)
      [mkViolation env rs m p i o] [mkViolEntry env rs (mkViolation env rs m p i o)] := by
  refine ⟨rfl, rfl, rfl, ?_, rfl, ?_, ?_⟩
  · intro e he
    simp only [List.mem_singleton] at he
    subst he
    rfl
  · intro v hv
    simp only [List.mem_singleton] at hv
    subst hv
    rfl
  · simp [recordViolation, mkViolation, hm]

/-- A failing bound check (direct counter bump followed by
`recordViolation` with the schema message) extends by one double-counted
violation. -/
theorem extends_boundFail (env : Env) (rs : RunState) (c p : String)
    (i : Val) (o : Option Val) :
    Extends rs
      (recordViolation env { rs with invariantViolations := rs.invariantViolations + 1 }
        ("Schema invariant failed: " ++ c) p i o)
      [mkViolation env { rs with invariantViolations := rs.invariantViolations + 1 }
        ("Schema invariant failed: " ++ c) p i o]
      [mkViolEntry env { rs with invariantViolations := rs.invariantViolations + 1 }
        (mkViolation env { rs with invariantViolations := rs.invariantViolations + 1 }
          ("Schema invariant failed: " ++ c) p i o)] := by
  refine ⟨rfl, rfl, rfl, ?_, rfl, ?_, ?_⟩
  · intro e he
    simp only [List.mem_singleton] at he
    subst he
    rfl
  · intro v hv
    simp only [List.mem_singleton] at hv
    subst hv
    rfl
  · simp [recordViolation, mkViolation, isSchemaMsg_schema]

/-- A bump of `checksPassed` alone is an empty extension. -/
theorem extends_checksPassed (rs : RunState) :
    Extends rs { rs with checksPassed := rs.checksPassed + 1 } [] [] := by
  refine ⟨rfl, by simp, by simp, by simp, by simp, by simp, by simp⟩

/-- Each structural check either does nothing or records one non-schema
violation. -/
theorem extends_applyNaNCheck (env : Env) (rs : RunState) (p : String)
    (output input : Val) :
    ∃ vs es, Extends rs (applyNaNCheck env rs p output input) vs es := by
  unfold applyNaNCheck
  by_cases hc : isNaNScore output
  · rw [if_pos hc]
    exact ⟨_, _, extends_recordViolation env rs _ p input (some output) isSchemaMsg_nan⟩
  · rw [if_neg hc]
    exact ⟨[], [], Extends.refl rs⟩

/-- The empty-output check is an extension. -/
theorem extends_applyEmptyCheck (env : Env) (rs : RunState) (p : String)
    (output input : Val) :
    ∃ vs es, Extends rs (applyEmptyCheck env rs p output input) vs es := by
  unfold applyEmptyCheck
  by_cases hc : emptyOutputCheck output
  · rw [if_pos hc]
    exact ⟨_, _, extends_recordViolation env rs _ p input (some output) isSchemaMsg_empty⟩
  · rw [if_neg hc]
    exact ⟨[], [], Extends.refl rs⟩

/-- The error-field check is an extension. -/
theorem extends_applyErrCheck (env : Env) (rs : RunState) (p : String)
    (output input : Val) :
    ∃ vs es, Extends rs (applyErrCheck env rs p output input) vs es := by
  unfold applyErrCheck
  by_cases hc : jsTruthyO (getField output "error")
  · rw [if_pos hc]
    exact ⟨_, _, extends_recordViolation env rs _ p input (some output)
      (isSchemaMsg_primError _)⟩
  · rw [if_neg hc]
    exact ⟨[], [], Extends.refl rs⟩

/-- The three fixed structural checks only extend the run state by
non-schema violations. -/
theorem extends_runCustomInvariants (env : Env) (rs : RunState) (p : String)
    (output input : Val) :
    ∃ vs es, Extends rs (runCustomInvariants env rs p output input) vs es := by
  unfold runCustomInvariants
  obtain ⟨vs1, es1, h1⟩ := extends_applyNaNCheck env rs p output input
  obtain ⟨vs2, es2, h2⟩ := extends_applyEmptyCheck env
    (applyNaNCheck env rs p output input) p output input
  obtain ⟨vs3, es3, h3⟩ := extends_applyErrCheck env
    (applyEmptyCheck env (applyNaNCheck env rs p output input) p output input) p output input
  exact ⟨vs1 ++ (vs2 ++ vs3), es1 ++ (es2 ++ es3), h1.trans (h2.trans h3)⟩

/-- The bound-check loop only extends the run state (schema-tagged
violations, double-counted, plus `checksPassed` bumps). -/
theorem extends_runBoundChecks (env : Env) (p : String) (input output : Val) :
    ∀ (checks : List String) (rs : RunState),
      ∃ vs es, Extends rs (runBoundChecks env p input output rs checks) vs es
  | [], rs => ⟨[], [], by rw [runBoundChecks]; exact Extends.refl rs⟩
  | c :: rest, rs => by
      rw [runBoundChecks]
      by_cases hc : runInvariant c output
      · rw [if_pos hc]
        obtain ⟨vs, es, h⟩ := extends_runBoundChecks env p input output rest
          { rs with checksPassed := rs.checksPassed + 1 }
        exact ⟨[] ++ vs, [] ++ es, (extends_checksPassed rs).trans h⟩
      · rw [if_neg hc]
        obtain ⟨vs, es, h⟩ := extends_runBoundChecks env p input output rest
          (recordViolation env { rs with invariantViolations := rs.invariantViolations + 1 }
            ("Schema invariant failed: " ++ c) p input (some output))
        exact ⟨_, _, (extends_boundFail env rs c p input (some output)).trans h⟩

/-- The step ledger entry appended at the end of a known-primitive
iteration is not a violation entry, and `appendLedgerEntry` changes
nothing else we track. -/
theorem appendLedgerEntry_fields (env : Env) (rs : RunState) (p : String)
    (input output : Val) :
    (appendLedgerEntry env rs p input output).tick = rs.tick
  ∧ (appendLedgerEntry env rs p input output).auditTrail = rs.auditTrail
  ∧ (appendLedgerEntry env rs p input output).invariantViolations = rs.invariantViolations
  ∧ ∃ entry, (appendLedgerEntry env rs p input output).ledger = rs.ledger ++ [entry]
      ∧ isViolEntry entry = false
      ∧ entry.payload = .pStep input output
      ∧ entry.hash = hashState (vObj [("input", input), ("output", output)]) :=
  ⟨rfl, rfl, rfl, _, rfl, rfl, rfl, rfl⟩

/-- Every element of a filtered-out list fails the predicate: helper for
counting ledger entries. -/
theorem filter_all_false {α : Type} (p : α → Bool) :
    ∀ l : List α, (∀ a ∈ l, p a = false) → l.filter p = []
  | [], _ => rfl
  | a :: rest, h => by
      simp only [List.filter, h a (List.mem_cons_self a rest)]
      exact filter_all_false p rest (fun x hx => h x (List.mem_cons_of_mem a hx))

/-- A list all of whose elements satisfy the predicate filters to
itself. -/
theorem filter_all_true {α : Type} (p : α → Bool) :
    ∀ l : List α, (∀ a ∈ l, p a = true) → l.filter p = l
  | [], _ => rfl
  | a :: rest, h => by
      simp only [List.filter, h a (List.mem_cons_self a rest)]
      rw [filter_all_true p rest (fun x hx => h x (List.mem_cons_of_mem a hx))]

/-- The synthetic-violation check is an extension. -/
theorem extends_synViolationCheck (env : Env) (rs : RunState) (p : String)
    (input output : Val) :
    ∃ vs es, Extends rs (synViolationCheck env rs p input output) vs es := by
  unfold synViolationCheck
  by_cases hc : jsTruthyO (getField output "_violation")
  · rw [if_pos hc]
    exact ⟨_, _, extends_recordViolation env rs _ p input (some output)
      (isSchemaMsg_synthetic _)⟩
  · rw [if_neg hc]
    exact ⟨[], [], Extends.refl rs⟩

/-- Counting a block of violation entries followed by one step entry. -/
theorem count_viol_append_step (es : List LedgerEntry) (entry : LedgerEntry)
    (hve : ∀ e ∈ es, isViolEntry e = true) (haev : isViolEntry entry = false) :
    ((es ++ [entry]).filter (fun e => isViolEntry e)).length = es.length
  ∧ ((es ++ [entry]).filter (fun e => !isViolEntry e)).length = 1 := by
  constructor
  · rw [List.filter_append, filter_all_true _ _ hve]
    simp [List.filter, haev]
  · rw [List.filter_append,
        filter_all_false (fun e => !isViolEntry e) es (fun e he => by simp [hve e he])]
    simp [List.filter, haev]

/-- Characterization of the post-call part of a loop iteration: it only
extends the bookkeeping by violations plus exactly one per-step ledger
entry, and reports the halt flag. -/
theorem runStepRest_spec (cfg : Config) (env : Env) (rs : RunState) (st : Step)
    (input output st1 : Val) (rs' : RunState) (b : Bool)
    (h : runStepRest cfg env rs st input output st1 = .ok (rs', b)) :
    ∃ vs es,
      rs'.tick = rs.tick
    ∧ rs'.auditTrail = rs.auditTrail ++ vs
    ∧ rs'.ledger = rs.ledger ++ es
    ∧ (es.filter (fun e => isViolEntry e)).length = vs.length
    ∧ (es.filter (fun e => !isViolEntry e)).length = 1
    ∧ (∀ v ∈ vs, v.tick = rs.tick)
    ∧ rs'.invariantViolations =
        rs.invariantViolations + vs.length +
          (vs.filter (fun v => isSchemaMsg v.message)).length
    ∧ b = (cfg.haltOnError && decide (0 < rs'.invariantViolations)) := by
  unfold runStepRest at h
  simp only [] at h
  generalize hA : synViolationCheck env { rs with state := st1 } st.primitive input output = rsA at h
  generalize hB : runCustomInvariants env rsA st.primitive output input = rsB at h
  cases happ : applyOutputs output st.output_fields rsB.state with
  | error e => rw [happ] at h; exact absurd h (by simp)
  | ok st2 =>
      rw [happ] at h
      simp only [] at h
      have h1 := congrArg Prod.fst (Except.ok.inj h)
      have h2 := congrArg Prod.snd (Except.ok.inj h)
      simp only [] at h1 h2
      subst h1
      -- Extension chain through the phases of the iteration.
      have h01 : Extends rs { rs with state := st1 } [] [] := extends_setState rs st1
      have h12 : ∃ vs es, Extends { rs with state := st1 } rsA vs es := by
        rw [← hA]
        exact extends_synViolationCheck env { rs with state := st1 } st.primitive input output
      obtain ⟨vs2, es2, h12⟩ := h12
      have h24 : ∃ vs es, Extends rsA rsB vs es := by
        rw [← hB]
        exact extends_runCustomInvariants env rsA st.primitive output input
      obtain ⟨vs4, es4, h24⟩ := h24
      have h46 : Extends rsB
          { rsB with state := st2, primitiveCounts := bumpCount rsB.primitiveCounts st.primitive }
          [] [] := by
        refine ⟨rfl, by simp, by simp, by simp, by simp, by simp, by simp⟩
      obtain ⟨vs7, es7, h67⟩ := extends_runBoundChecks env st.primitive input output
        (lookupBindings cfg st.primitive)
        { rsB with state := st2, primitiveCounts := bumpCount rsB.primitiveCounts st.primitive }
      have hchain : Extends rs
          (runBoundChecks env st.primitive input output
            { rsB with state := st2, primitiveCounts := bumpCount rsB.primitiveCounts st.primitive }
            (lookupBindings cfg st.primitive))
          ((([] ++ vs2) ++ vs4) ++ ([] ++ vs7))
          ((([] ++ es2) ++ es4) ++ ([] ++ es7)) :=
        ((h01.trans h12).trans h24).trans (h46.trans h67)
      obtain ⟨ht, ha, hl, hve, hn, hkv, hi⟩ := hchain
      obtain ⟨hat, haa, hai, entry, hael, haev, _, _⟩ :=
        appendLedgerEntry_fields env
          (runBoundChecks env st.primitive input output
            { rsB with state := st2, primitiveCounts := bumpCount rsB.primitiveCounts st.primitive }
            (lookupBindings cfg st.primitive))
          st.primitive input output
      obtain ⟨hc4, hc5⟩ := count_viol_append_step _ entry hve haev
      refine ⟨(([] ++ vs2) ++ vs4) ++ ([] ++ vs7),
              ((([] ++ es2) ++ es4) ++ ([] ++ es7)) ++ [entry],
              hat.trans ht, haa.trans ha, ?_, ?_, ?_, hkv, hai.trans hi, ?_⟩
      · exact hael.trans (by rw [hl, List.append_assoc])
      · rw [hc4, hn]
      · exact hc5
      · rw [← h2]

/-- **Step characterization.**  A successfully completed loop iteration
bumps the tick by exactly one, appends `vs` violations to the audit trail
(all stamped with the new tick) and matching violation ledger entries,
appends exactly one per-step ledger entry iff the primitive is registered,
raises the violation counter by one per violation plus one extra per
schema-tagged violation, and reports the break flag
`haltOnError && violations > 0`. -/
theorem runStep_spec (cfg : Config) (env : Env) (rs : RunState) (st : Step)
    (rs' : RunState) (b : Bool) (h : runStep cfg env rs st = .ok (rs', b)) :
    ∃ vs es,
      rs'.tick = rs.tick + 1
    ∧ rs'.auditTrail = rs.auditTrail ++ vs
    ∧ rs'.ledger = rs.ledger ++ es
    ∧ (es.filter (fun e => isViolEntry e)).length = vs.length
    ∧ (es.filter (fun e => !isViolEntry e)).length =
        (if isKnownPrimitive st.primitive then 1 else 0)
    ∧ (∀ v ∈ vs, v.tick = rs.tick + 1)
    ∧ rs'.invariantViolations =
        rs.invariantViolations + vs.length +
          (vs.filter (fun v => isSchemaMsg v.message)).length
    ∧ b = (cfg.haltOnError && decide (0 < rs'.invariantViolations)) := by
  unfold runStep at h
  by_cases hk : isKnownPrimitive st.primitive
  · rw [if_pos hk] at h
    simp only [] at h
    cases hcall : callPrimitive env.evalExpr st.primitive (combinedInput rs.state st) rs.state with
    | error e => rw [hcall] at h; exact absurd h (by simp)
    | ok pr =>
        obtain ⟨output, st1⟩ := pr
        rw [hcall] at h
        simp only [] at h
        obtain ⟨vs, es, ht, ha, hl, hfv, hfs, hkv, hi, hb⟩ :=
          runStepRest_spec cfg env { rs with tick := rs.tick + 1 } st
            (combinedInput rs.state st) output st1 rs' b h
        exact ⟨vs, es, ht, ha, hl, hfv, by rw [hfs, if_pos hk], hkv, hi, hb⟩
  · rw [if_neg hk] at h
    simp only [] at h
    have h1 := congrArg Prod.fst (Except.ok.inj h)
    have h2 := congrArg Prod.snd (Except.ok.inj h)
    simp only [] at h1 h2
    subst h1
    obtain ⟨ht, ha, hl, hve, hn, hkv, hi⟩ :=
      extends_recordViolation env { rs with tick := rs.tick + 1 }
        ("Unknown primitive: " ++ st.primitive) st.primitive (vObj []) none
        (isSchemaMsg_unknown _)
    refine ⟨_, _, ht, ha, hl, ?_, ?_, hkv, hi, ?_⟩
    · rw [filter_all_true _ _ hve]
      simp
    · rw [if_neg hk,
          filter_all_false (fun e => !isViolEntry e) _ (fun e he => by simp [hve e he])]
      rfl
    · rw [← h2, hi]
      simp

/-! ## C10 — double counting of failing bound checks -/

/-- Number of violations in a trail that came from failing bound (schema)
checks — the only call site producing `Schema invariant failed: …`
messages. -/
def schemaViolCount (l : List Violation) : Nat :=
  (l.filter (fun v => isSchemaMsg v.message)).length

/-- The counter/audit-trail relation is preserved by the whole loop. -/
theorem runLoop_c10 (cfg : Config) (env : Env) :
    ∀ (steps : List Step) (rs res : RunState),
      rs.invariantViolations = rs.auditTrail.length + schemaViolCount rs.auditTrail →
      runLoop cfg env rs steps = .ok res →
      res.invariantViolations = res.auditTrail.length + schemaViolCount res.auditTrail
  | [], rs, res, hP, h => by
      rw [runLoop] at h
      obtain rfl := Except.ok.inj h
      exact hP
  | st :: rest, rs, res, hP, h => by
      rw [runLoop] at h
      cases hstep : runStep cfg env rs st with
      | error e => rw [hstep] at h; exact absurd h (by simp)
      | ok p =>
          obtain ⟨rs', b⟩ := p
          rw [hstep] at h
          simp only [] at h
          obtain ⟨vs, es, _, ha, _, _, _, _, hi, _⟩ := runStep_spec cfg env rs st rs' b hstep
          have hP' : rs'.invariantViolations =
              rs'.auditTrail.length + schemaViolCount rs'.auditTrail := by
            rw [hi, ha, hP]
            simp only [schemaViolCount, List.filter_append, List.length_append]
            ring
          by_cases hb : b
          · rw [if_pos hb] at h
            obtain rfl := Except.ok.inj h
            exact hP'
          · rw [if_neg hb] at h
            exact runLoop_c10 cfg env rest rs' res hP' h

/-- **C10, confirmed.**  Each failing bound check increments the run's
violation counter twice — once directly at the check site and once inside
`recordViolation` — while appending only one audit-trail record (tagged
`Schema invariant failed: …`).  Hence at run end the proof's violation
count equals the audit-trail length plus the number of failed bound
checks, and strictly exceeds the audit-trail length whenever at least one
bound check failed. -/
theorem c10_double_count (cfg : Config) (env : Env) (plan : List Step) (init : Val)
    (res : RunState) (h : execute cfg env plan init = .ok res) :
    res.invariantViolations = res.auditTrail.length + schemaViolCount res.auditTrail
  ∧ (0 < schemaViolCount res.auditTrail →
      res.auditTrail.length < res.invariantViolations)
  ∧ (∀ (p : String) (input output : Val) (rs : RunState) (check : String),
      runInvariant check output = false →
      (runBoundChecks env p input output rs [check]).invariantViolations =
          rs.invariantViolations + 2
        ∧ (runBoundChecks env p input output rs [check]).auditTrail.length =
          rs.auditTrail.length + 1) := by
  have hmain := runLoop_c10 cfg env plan (initState init) res (by simp [initState, schemaViolCount]) h
  refine ⟨hmain, ?_, ?_⟩
  · intro hpos
    omega
  · intro p input output rs check hfail
    constructor
    · simp [runBoundChecks, hfail, recordViolation, runBoundChecks]
    · simp [runBoundChecks, hfail, recordViolation, runBoundChecks]

/-- Halt-off configuration binding the `stateProgress` check to the state
mutator: an invalid-path call fails the check. -/
def cfgSchema : Config :=
  { haltOnError := false, bindings := [("STATE_MUTATOR", ["stateProgress"])] }

/-- A mutator step with no path at all (the primitive reports
`success:false`, failing the bound check). -/
def invalidMutStep : Step :=
  { id := "b1", primitive := "STATE_MUTATOR", input_fields := [], output_fields := [],
    params := [] }

/-- The final state of the C10 witness run. -/
def c10Res : RunState :=
  match execute cfgSchema trivialEnv [invalidMutStep] (vObj []) with
  | .ok r => r
  | .error _ => initState (vObj [])

/-- **C10, witness**: in the one-step invalid-mutator run with the
`stateProgress` binding, the counter (2) equals the audit-trail length (1)
plus the one failed bound check, and strictly exceeds the trail length;
the instantiated bound-check site adds 2 to the counter and 1 to the
trail. -/
theorem c10_witness :
    (c10Res.invariantViolations = c10Res.auditTrail.length + schemaViolCount c10Res.auditTrail
  ∧ (0 < schemaViolCount c10Res.auditTrail →
      c10Res.auditTrail.length < c10Res.invariantViolations))
  ∧ ((runBoundChecks trivialEnv "STATE_MUTATOR" (vObj [])
        (vObj [("success", vBool false), ("message", vStr "Invalid or missing path")])
        (initState (vObj [])) ["stateProgress"]).invariantViolations =
      (initState (vObj [])).invariantViolations + 2
    ∧ (runBoundChecks trivialEnv "STATE_MUTATOR" (vObj [])
        (vObj [("success", vBool false), ("message", vStr "Invalid or missing path")])
        (initState (vObj [])) ["stateProgress"]).auditTrail.length =
      (initState (vObj [])).auditTrail.length + 1) :=
  let h := c10_double_count cfgSchema trivialEnv [invalidMutStep] (vObj []) c10Res rfl
  ⟨⟨h.1, h.2.1⟩,
   h.2.2 "STATE_MUTATOR" (vObj [])
     (vObj [("success", vBool false), ("message", vStr "Invalid or missing path")])
     (initState (vObj [])) "stateProgress" rfl⟩

/-! ## C2 — halt-on-violation policy -/

/-- Number of attempted steps dispatching a registered primitive (each of
which appends exactly one per-step ledger entry). -/
def countKnown (steps : List Step) : Nat :=
  (steps.filter (fun st => isKnownPrimitive st.primitive)).length

/-- Splitting a list into the part satisfying a predicate and the rest. -/
theorem length_filter_split {α : Type} (p : α → Bool) : ∀ l : List α,
    (l.filter p).length + (l.filter (fun a => !p a)).length = l.length
  | [] => rfl
  | a :: rest => by
      have ih := length_filter_split p rest
      by_cases h : p a = true
      · simp only [List.filter_cons, h, if_pos, Bool.not_true, if_neg, List.length_cons]
        simp only [Bool.false_eq_true, if_false]
        omega
      · simp only [List.filter_cons, h, Bool.not_eq_true] at *
        simp only [h, Bool.not_false, if_true, List.length_cons]
        simp only [Bool.false_eq_true, if_false]
        omega

/-- One more step in the known-primitive count. -/
theorem countKnown_cons (st : Step) (steps : List Step) :
    countKnown (st :: steps) =
      countKnown steps + (if isKnownPrimitive st.primitive then 1 else 0) := by
  by_cases h : isKnownPrimitive st.primitive
  · simp [countKnown, List.filter_cons, h]
  · simp [countKnown, List.filter_cons, h]

/-- With halt-on-violation enabled, a completed loop run attempts some
prefix of the steps: the tick counts the attempts, the run is already
determined by that prefix, a clean run attempts everything, and a
violating run's final attempt is the first one that produced a
violation. -/
theorem runLoop_halt_spec (cfg : Config) (env : Env) (hhalt : cfg.haltOnError = true) :
    ∀ (steps : List Step) (rs res : RunState),
      rs.invariantViolations = 0 →
      runLoop cfg env rs steps = .ok res →
      ∃ k, k ≤ steps.length
        ∧ res.tick = rs.tick + k
        ∧ runLoop cfg env rs (steps.take k) = .ok res
        ∧ (res.invariantViolations = 0 → k = steps.length)
        ∧ (0 < res.invariantViolations →
            0 < k ∧ ∃ res0, runLoop cfg env rs (steps.take (k - 1)) = .ok res0 ∧
              res0.invariantViolations = 0)
  | [], rs, res, hv, h => by
      rw [runLoop] at h
      have hre : rs = res := Except.ok.inj h
      subst hre
      refine ⟨0, by simp, by simp, by simp [runLoop], fun _ => rfl, fun hpos => ?_⟩
      rw [hv] at hpos
      exact absurd hpos (by simp)
  | st :: rest, rs, res, hv, h => by
      rw [runLoop] at h
      cases hstep : runStep cfg env rs st with
      | error e => rw [hstep] at h; exact absurd h (by simp)
      | ok p =>
          obtain ⟨rs', b⟩ := p
          rw [hstep] at h
          simp only [] at h
          obtain ⟨vs, es, ht, ha, hl, hfv, hfs, hkv, hi, hb⟩ :=
            runStep_spec cfg env rs st rs' b hstep
          rw [hhalt, Bool.true_and] at hb
          by_cases hbv : b
          · rw [if_pos hbv] at h
            have hre : rs' = res := Except.ok.inj h
            subst hre
            have hpos : 0 < rs'.invariantViolations :=
              of_decide_eq_true (hb.symm.trans hbv)
            refine ⟨1, Nat.succ_le_succ (Nat.zero_le _), ht, ?_, ?_,
              fun _ => ⟨Nat.one_pos, rs, by simp [runLoop], hv⟩⟩
            · rw [List.take_succ_cons, List.take_zero, runLoop, hstep]
              simp [hbv]
            · intro h0
              exact absurd (h0 ▸ hpos) (lt_irrefl 0)
          · rw [if_neg hbv] at h
            have hv' : rs'.invariantViolations = 0 := by
              by_contra hne
              exact hbv (hb ▸ decide_eq_true (Nat.pos_of_ne_zero hne))
            obtain ⟨k', hk'le, hk't, hk'run, hk'clean, hk'viol⟩ :=
              runLoop_halt_spec cfg env hhalt rest rs' res hv' h
            refine ⟨k' + 1, Nat.succ_le_succ hk'le, by rw [hk't, ht]; omega, ?_, ?_, ?_⟩
            · rw [List.take_succ_cons, runLoop, hstep]
              simp only [if_neg hbv]
              exact hk'run
            · intro hres0
              rw [hk'clean hres0]
              simp
            · intro hpos
              obtain ⟨hk'pos, res0, hres0run, hres0v⟩ := hk'viol hpos
              refine ⟨Nat.succ_pos k', res0, ?_, hres0v⟩
              obtain ⟨j, rfl⟩ : ∃ j, k' = j + 1 := ⟨k' - 1, by omega⟩
              rw [Nat.add_sub_cancel, List.take_succ_cons, runLoop, hstep]
              simp only [if_neg hbv]
              simpa using hres0run

/-- Ledger/audit accounting over a completed loop run: the ledger grows by
one violation entry per audit-trail record plus one step entry per
attempted step with a registered primitive. -/
theorem runLoop_count_spec (cfg : Config) (env : Env) :
    ∀ (steps : List Step) (rs res : RunState),
      runLoop cfg env rs steps = .ok res →
      ∃ k, k ≤ steps.length
        ∧ res.tick = rs.tick + k
        ∧ res.ledger.length + rs.auditTrail.length =
            rs.ledger.length + res.auditTrail.length + countKnown (steps.take k)
  | [], rs, res, h => by
      rw [runLoop] at h
      have hre : rs = res := Except.ok.inj h
      subst hre
      exact ⟨0, by simp, by simp, by simp [countKnown]⟩
  | st :: rest, rs, res, h => by
      rw [runLoop] at h
      cases hstep : runStep cfg env rs st with
      | error e => rw [hstep] at h; exact absurd h (by simp)
      | ok p =>
          obtain ⟨rs', b⟩ := p
          rw [hstep] at h
          simp only [] at h
          obtain ⟨vs, es, ht, ha, hl, hfv, hfs, hkv, hi, hb⟩ :=
            runStep_spec cfg env rs st rs' b hstep
          have hsplit := length_filter_split (fun e => isViolEntry e) es
          have hstepcount : rs'.ledger.length + rs.auditTrail.length =
              rs.ledger.length + rs'.auditTrail.length +
                (if isKnownPrimitive st.primitive then 1 else 0) := by
            rw [ha, hl]
            simp only [List.length_append]
            omega
          by_cases hbv : b
          · rw [if_pos hbv] at h
            have hre : rs' = res := Except.ok.inj h
            subst hre
            refine ⟨1, Nat.succ_le_succ (Nat.zero_le _), ht, ?_⟩
            rw [List.take_succ_cons, List.take_zero, countKnown_cons]
            simp only [countKnown, List.filter_nil, List.length_nil]
            omega
          · rw [if_neg hbv] at h
            obtain ⟨k', hk'le, hk't, hk'cnt⟩ := runLoop_count_spec cfg env rest rs' res h
            refine ⟨k' + 1, Nat.succ_le_succ hk'le, by rw [hk't, ht]; omega, ?_⟩
            rw [List.take_succ_cons, countKnown_cons]
            omega

/-- **C2, counterexample.**  The claim says that under halt-on-violation
the resulting ledger length equals the number of steps actually attempted.
The one-step empty-scores run attempts 1 step but its ledger holds 3
entries: two `VIOLATION_RECORDED` entries (pushed by `recordViolation`,
source 420-427) plus the per-step entry. -/
theorem c2_counterexample :
    (execute cfgHalt trivialEnv [scorerEmptyStep "s2"] (vObj [])).map
        (fun r => (r.tick, r.ledger.length)) = .ok (1, 3) := rfl

/-- **C2, amended.**  With halt-on-violation enabled, the run executes no
step after the first step that produces at least one violation: the final
tick is the number of steps attempted, the run is fully determined by that
prefix of the plan, a violation-free run attempts the whole plan, and in a
violating run all steps before the last attempted one were violation-free.
The final ledger length is not the number of attempted steps but the
audit-trail length plus the number of attempted steps with a registered
primitive (each violation also pushes a ledger entry). -/
theorem c2_halt_amended (cfg : Config) (env : Env) (plan : List Step) (init : Val)
    (res : RunState) (hhalt : cfg.haltOnError = true)
    (h : execute cfg env plan init = .ok res) :
    res.tick ≤ plan.length
  ∧ execute cfg env (plan.take res.tick) init = .ok res
  ∧ (res.invariantViolations = 0 → res.tick = plan.length)
  ∧ (0 < res.invariantViolations →
      0 < res.tick ∧ ∃ res0, execute cfg env (plan.take (res.tick - 1)) init = .ok res0 ∧
        res0.invariantViolations = 0)
  ∧ res.ledger.length = res.auditTrail.length + countKnown (plan.take res.tick) := by
  obtain ⟨k, hle, htick, hrun, hclean, hviol⟩ :=
    runLoop_halt_spec cfg env hhalt plan (initState init) res rfl h
  obtain ⟨k2, hle2, htick2, hcnt2⟩ := runLoop_count_spec cfg env plan (initState init) res h
  have hkt : k = res.tick := by
    simp only [initState] at htick
    omega
  have hkt2 : k2 = res.tick := by
    simp only [initState] at htick2
    omega
  subst hkt
  subst hkt2
  refine ⟨hle, hrun, hclean, hviol, ?_⟩
  simp only [initState, List.length_nil] at hcnt2
  omega

/-- The final state of the C2 witness run (one-step halting run with a
double violation). -/
def c2Res : RunState :=
  match execute cfgHalt trivialEnv [scorerEmptyStep "s2w"] (vObj []) with
  | .ok r => r
  | .error _ => initState (vObj [])

/-- **C2, witness** for the amended theorem at a concrete halting run. -/
theorem c2_witness :
    c2Res.tick ≤ ([scorerEmptyStep "s2w"]).length
  ∧ execute cfgHalt trivialEnv (([scorerEmptyStep "s2w"]).take c2Res.tick) (vObj []) = .ok c2Res
  ∧ (c2Res.invariantViolations = 0 → c2Res.tick = ([scorerEmptyStep "s2w"]).length)
  ∧ (0 < c2Res.invariantViolations →
      0 < c2Res.tick ∧
      ∃ res0, execute cfgHalt trivialEnv (([scorerEmptyStep "s2w"]).take (c2Res.tick - 1))
          (vObj []) = .ok res0 ∧ res0.invariantViolations = 0)
  ∧ c2Res.ledger.length =
      c2Res.auditTrail.length + countKnown (([scorerEmptyStep "s2w"]).take c2Res.tick) :=
  c2_halt_amended cfgHalt trivialEnv [scorerEmptyStep "s2w"] (vObj []) c2Res rfl rfl

/-! ## C5 — tick accounting -/

/-- A constant list is non-decreasing. -/
theorem pairwise_le_of_all_eq (c : Nat) : ∀ l : List Nat,
    (∀ x ∈ l, x = c) → List.Pairwise (· ≤ ·) l
  | [], _ => List.Pairwise.nil
  | x :: rest, h => by
      refine List.Pairwise.cons ?_ (pairwise_le_of_all_eq c rest ?_)
      · intro y hy
        rw [h x (List.mem_cons_self x rest), h y (List.mem_cons_of_mem x hy)]
      · intro y hy
        exact h y (List.mem_cons_of_mem x hy)

/-- Tick bookkeeping over a completed loop run: attempts advance the tick
one at a time up to the number of remaining steps (exactly that number
when halting is off), every audit record's tick is bounded by the final
tick, new records are stamped later than the starting tick, and the
trail's tick sequence stays non-decreasing. -/
theorem runLoop_tick_spec (cfg : Config) (env : Env) :
    ∀ (steps : List Step) (rs res : RunState),
      runLoop cfg env rs steps = .ok res →
      (∀ v ∈ rs.auditTrail, v.tick ≤ rs.tick) →
      List.Pairwise (· ≤ ·) (rs.auditTrail.map (fun v => v.tick)) →
      rs.tick ≤ res.tick
      ∧ res.tick ≤ rs.tick + steps.length
      ∧ (cfg.haltOnError = false → res.tick = rs.tick + steps.length)
      ∧ (∀ v ∈ res.auditTrail, v.tick ≤ res.tick ∧ (v ∈ rs.auditTrail ∨ rs.tick + 1 ≤ v.tick))
      ∧ List.Pairwise (· ≤ ·) (res.auditTrail.map (fun v => v.tick))
  | [], rs, res, h, hbound, hpw => by
      rw [runLoop] at h
      have hre : rs = res := Except.ok.inj h
      subst hre
      exact ⟨le_rfl, by simp, by simp, fun v hv => ⟨hbound v hv, Or.inl hv⟩, hpw⟩
  | st :: rest, rs, res, h, hbound, hpw => by
      rw [runLoop] at h
      cases hstep : runStep cfg env rs st with
      | error e => rw [hstep] at h; exact absurd h (by simp)
      | ok p =>
          obtain ⟨rs', b⟩ := p
          rw [hstep] at h
          simp only [] at h
          obtain ⟨vs, es, ht, ha, hl, hfv, hfs, hkv, hi, hb⟩ :=
            runStep_spec cfg env rs st rs' b hstep
          have hbound' : ∀ v ∈ rs'.auditTrail, v.tick ≤ rs'.tick := by
            intro v hv
            rw [ha] at hv
            rw [ht]
            rcases List.mem_append.mp hv with hold | hnew
            · exact le_trans (hbound v hold) (Nat.le_succ _)
            · exact le_of_eq (hkv v hnew)
          have hpw' : List.Pairwise (· ≤ ·) (rs'.auditTrail.map (fun v => v.tick)) := by
            rw [ha, List.map_append]
            refine List.pairwise_append.mpr ⟨hpw, ?_, ?_⟩
            · exact pairwise_le_of_all_eq (rs.tick + 1) _
                (by intro x hx
                    obtain ⟨v, hv, rfl⟩ := List.mem_map.mp hx
                    exact hkv v hv)
            · intro a hamem bb hbmem
              obtain ⟨v, hv, rfl⟩ := List.mem_map.mp hamem
              obtain ⟨w, hw, rfl⟩ := List.mem_map.mp hbmem
              rw [hkv w hw]
              exact le_trans (hbound v hv) (Nat.le_succ _)
          by_cases hbv : b
          · rw [if_pos hbv] at h
            have hre : rs' = res := Except.ok.inj h
            subst hre
            have hhalt : cfg.haltOnError = true := by
              by_contra hoff
              rw [Bool.not_eq_true] at hoff
              rw [hoff, Bool.false_and] at hb
              exact Bool.false_ne_true (hb ▸ hbv)
            refine ⟨by rw [ht]; exact Nat.le_succ _, by rw [ht]; simp, ?_, ?_, hpw'⟩
            · intro hoff
              rw [hoff] at hhalt
              exact absurd hhalt (by simp)
            · intro v hv
              refine ⟨hbound' v hv, ?_⟩
              rw [ha] at hv
              rcases List.mem_append.mp hv with hold | hnew
              · exact Or.inl hold
              · exact Or.inr (le_of_eq (hkv v hnew).symm)
          · rw [if_neg hbv] at h
            obtain ⟨hmono, hub, hoff, hmem, hpwres⟩ :=
              runLoop_tick_spec cfg env rest rs' res h hbound' hpw'
            refine ⟨le_trans (ht ▸ Nat.le_succ _) hmono, ?_, ?_, ?_, hpwres⟩
            · rw [ht] at hub
              simp only [List.length_cons]
              omega
            · intro hho
              rw [hoff hho, ht]
              simp only [List.length_cons]
              omega
            · intro v hv
              obtain ⟨hvle, hvmem⟩ := hmem v hv
              refine ⟨hvle, ?_⟩
              rcases hvmem with hin' | hlater
              · rw [ha] at hin'
                rcases List.mem_append.mp hin' with hold | hnew
                · exact Or.inl hold
                · exact Or.inr (le_of_eq (hkv v hnew).symm)
              · rw [ht] at hlater
                exact Or.inr (by omega)

/-- **C5, counterexample.**  The claim says the tick numbers observed
across ledger entries and violation records form a *strictly increasing*
sequence.  A single step can record several violations at the same tick:
the empty-scores composite step records two violations, both at tick 1, so
the observed sequence is `[1, 1]` — not strictly increasing.  (Per-step
ledger entries carry no tick field at all; only violation records do.) -/
theorem c5_counterexample :
    (execute cfgPlain trivialEnv [scorerEmptyStep "s5"] (vObj [])).map
        (fun r => r.auditTrail.map (fun v => v.tick)) = .ok [1, 1]
  ∧ ¬ List.Pairwise (· < ·) ([1, 1] : List Nat) :=
  ⟨rfl, by
    intro hpw
    cases hpw with
    | cons hrel _ => exact absurd (hrel 1 (List.mem_singleton_self 1)) (lt_irrefl 1)⟩

/-- **C5, amended.**  The tick counter increases by exactly 1 per step
attempt (including erroring/skipped steps) and is never reset: attempts of
one run are numbered 1, 2, … contiguously, the final tick is at most the
plan length and exactly the plan length when halt-on-violation is off.
Violation records carry the tick of the attempt that produced them, so the
tick sequence observed across violation records is *non-decreasing* (not
strictly increasing) with all values between 1 and the final tick;
per-step ledger entries carry no tick. -/
theorem c5_tick_amended (cfg : Config) (env : Env) (plan : List Step) (init : Val)
    (res : RunState) (h : execute cfg env plan init = .ok res) :
    (∀ (rs : RunState) (st : Step) (rs' : RunState) (b : Bool),
        runStep cfg env rs st = .ok (rs', b) → rs'.tick = rs.tick + 1)
  ∧ res.tick ≤ plan.length
  ∧ (cfg.haltOnError = false → res.tick = plan.length)
  ∧ (∀ v ∈ res.auditTrail, 1 ≤ v.tick ∧ v.tick ≤ res.tick)
  ∧ List.Pairwise (· ≤ ·) (res.auditTrail.map (fun v => v.tick)) := by
  obtain ⟨hmono, hub, hoff, hmem, hpw⟩ :=
    runLoop_tick_spec cfg env plan (initState init) res h
      (by intro v hv; simp [initState] at hv) (by simp [initState])
  refine ⟨?_, ?_, ?_, ?_, hpw⟩
  · intro rs st rs' b hstep
    obtain ⟨_, _, ht, _⟩ := runStep_spec cfg env rs st rs' b hstep
    exact ht
  · simpa [initState] using hub
  · intro hho
    simpa [initState] using hoff hho
  · intro v hv
    obtain ⟨hvle, hvmem⟩ := hmem v hv
    refine ⟨?_, hvle⟩
    rcases hvmem with hin | hlater
    · simp [initState] at hin
    · simpa [initState] using hlater

/-- The final state of the C5 witness run. -/
def c5Run : RunState :=
  match execute cfgPlain trivialEnv [scorerEmptyStep "w5"] (vObj []) with
  | .ok r => r
  | .error _ => initState (vObj [])

/-- The result of the single witness step attempt (for the per-attempt
tick-increment part of the amended claim). -/
def c5Step : RunState × Bool :=
  match runStep cfgPlain trivialEnv (initState (vObj [])) (scorerEmptyStep "w5") with
  | .ok p => p
  | .error _ => (initState (vObj []), false)

/-- **C5, witness** for the amended theorem at a concrete run. -/
theorem c5_witness :
    c5Run.tick ≤ ([scorerEmptyStep "w5"]).length
  ∧ (cfgPlain.haltOnError = false → c5Run.tick = ([scorerEmptyStep "w5"]).length)
  ∧ List.Pairwise (· ≤ ·) (c5Run.auditTrail.map (fun v => v.tick))
  ∧ c5Step.1.tick = (initState (vObj [])).tick + 1 :=
  let h := c5_tick_amended cfgPlain trivialEnv [scorerEmptyStep "w5"] (vObj []) c5Run rfl
  ⟨h.2.1, h.2.2.1, h.2.2.2.2, h.1 (initState (vObj [])) (scorerEmptyStep "w5")
    c5Step.1 c5Step.2 rfl⟩

/-! ## C1 — determinism up to the ambient environment -/

/-- A violation stripped of its wall-clock timestamp. -/
structure SemViol where
  tick : Nat
  primitive : String
  message : String
  inputSample : Val
  outputSample : Option Val
  deriving Repr

/-- Strip the timestamp. -/
def semViol (v : Violation) : SemViol :=
  ⟨v.tick, v.primitive, v.message, v.inputSample, v.outputSample⟩

/-- A ledger payload stripped of environment decorations: a step payload
keeps its content hash (a pure function of input/output); a violation
payload is reduced to the timestamp-free violation (its hash covers the
timestamp, so it is dropped). -/
inductive SemPayload where
  | step (input output : Val) (hash : String)
  | viol (v : SemViol)
  deriving Repr

/-- Strip a ledger entry to its operation name and semantic payload
(dropping the random `id` and the timestamp). -/
def semEntry (e : LedgerEntry) : String × SemPayload :=
  (e.operation,
   match e.payload with
   | .pStep i o => .step i o e.hash
   | .pViol v => .viol (semViol v))

/-- The environment-independent part of the run state. -/
structure SemRS where
  state : Val
  tick : Nat
  invariantViolations : Nat
  checksPassed : Nat
  primitiveCounts : List (String × Nat)
  violationsByType : List (String × Nat)
  ctr : Nat
  ledger : List (String × SemPayload)
  auditTrail : List SemViol

/-- Project a run state to its environment-independent part. -/
def semRS (rs : RunState) : SemRS :=
  ⟨rs.state, rs.tick, rs.invariantViolations, rs.checksPassed, rs.primitiveCounts,
   rs.violationsByType, rs.ctr, rs.ledger.map semEntry, rs.auditTrail.map semViol⟩

/-- `recordViolation` commutes with the semantic projection: two runs in
sem-equal states record sem-equal violations whatever their uuid/time
streams are. -/
theorem semRS_recordViolation (env1 env2 : Env) (rs1 rs2 : RunState)
    (m p : String) (i : Val) (o : Option Val) (h : semRS rs1 = semRS rs2) :
    semRS (recordViolation env1 rs1 m p i o) = semRS (recordViolation env2 rs2 m p i o) := by
  simp only [semRS, SemRS.mk.injEq] at h ⊢
  obtain ⟨h1, h2, h3, h4, h5, h6, h7, h8, h9⟩ := h
  simp only [recordViolation, mkViolation, mkViolEntry, List.map_append, List.map_cons,
    List.map_nil, semEntry, semViol]
  exact ⟨h1, h2, by rw [h3], h4, h5, by rw [h6], by rw [h7], by rw [h8, h2], by rw [h9, h2]⟩

/-- `appendLedgerEntry` commutes with the semantic projection (the step
entry's hash is a pure function of the payload). -/
theorem semRS_appendLedgerEntry (env1 env2 : Env) (rs1 rs2 : RunState)
    (p : String) (input output : Val) (h : semRS rs1 = semRS rs2) :
    semRS (appendLedgerEntry env1 rs1 p input output) =
      semRS (appendLedgerEntry env2 rs2 p input output) := by
  simp only [semRS, SemRS.mk.injEq] at h ⊢
  obtain ⟨h1, h2, h3, h4, h5, h6, h7, h8, h9⟩ := h
  simp only [appendLedgerEntry, List.map_append, List.map_cons, List.map_nil, semEntry]
  exact ⟨h1, h2, h3, h4, h5, h6, by rw [h7], by rw [h8], h9⟩

/-- The synthetic-violation check commutes with the projection. -/
theorem semRS_synViolationCheck (env1 env2 : Env) (rs1 rs2 : RunState)
    (p : String) (input output : Val) (h : semRS rs1 = semRS rs2) :
    semRS (synViolationCheck env1 rs1 p input output) =
      semRS (synViolationCheck env2 rs2 p input output) := by
  unfold synViolationCheck
  by_cases hc : jsTruthyO (getField output "_violation")
  · rw [if_pos hc, if_pos hc]
    exact semRS_recordViolation env1 env2 rs1 rs2 _ p input (some output) h
  · rw [if_neg hc, if_neg hc]
    exact h

/-- The NaN structural check commutes with the projection. -/
theorem semRS_applyNaNCheck (env1 env2 : Env) (rs1 rs2 : RunState)
    (p : String) (output input : Val) (h : semRS rs1 = semRS rs2) :
    semRS (applyNaNCheck env1 rs1 p output input) =
      semRS (applyNaNCheck env2 rs2 p output input) := by
  unfold applyNaNCheck
  by_cases hc : isNaNScore output
  · rw [if_pos hc, if_pos hc]
    exact semRS_recordViolation env1 env2 rs1 rs2 _ p input (some output) h
  · rw [if_neg hc, if_neg hc]
    exact h

/-- The empty-output structural check commutes with the projection. -/
theorem semRS_applyEmptyCheck (env1 env2 : Env) (rs1 rs2 : RunState)
    (p : String) (output input : Val) (h : semRS rs1 = semRS rs2) :
    semRS (applyEmptyCheck env1 rs1 p output input) =
      semRS (applyEmptyCheck env2 rs2 p output input) := by
  unfold applyEmptyCheck
  by_cases hc : emptyOutputCheck output
  · rw [if_pos hc, if_pos hc]
    exact semRS_recordViolation env1 env2 rs1 rs2 _ p input (some output) h
  · rw [if_neg hc, if_neg hc]
    exact h

/-- The error-field structural check commutes with the projection. -/
theorem semRS_applyErrCheck (env1 env2 : Env) (rs1 rs2 : RunState)
    (p : String) (output input : Val) (h : semRS rs1 = semRS rs2) :
    semRS (applyErrCheck env1 rs1 p output input) =
      semRS (applyErrCheck env2 rs2 p output input) := by
  unfold applyErrCheck
  by_cases hc : jsTruthyO (getField output "error")
  · rw [if_pos hc, if_pos hc]
    exact semRS_recordViolation env1 env2 rs1 rs2 _ p input (some output) h
  · rw [if_neg hc, if_neg hc]
    exact h

/-- The fixed structural checks commute with the projection. -/
theorem semRS_runCustomInvariants (env1 env2 : Env) (rs1 rs2 : RunState)
    (p : String) (output input : Val) (h : semRS rs1 = semRS rs2) :
    semRS (runCustomInvariants env1 rs1 p output input) =
      semRS (runCustomInvariants env2 rs2 p output input) := by
  unfold runCustomInvariants
  exact semRS_applyErrCheck env1 env2 _ _ p output input
    (semRS_applyEmptyCheck env1 env2 _ _ p output input
      (semRS_applyNaNCheck env1 env2 rs1 rs2 p output input h))

/-- The bound-check loop commutes with the projection. -/
theorem semRS_runBoundChecks (env1 env2 : Env) (p : String) (input output : Val) :
    ∀ (checks : List String) (rs1 rs2 : RunState), semRS rs1 = semRS rs2 →
      semRS (runBoundChecks env1 p input output rs1 checks) =
        semRS (runBoundChecks env2 p input output rs2 checks)
  | [], rs1, rs2, h => by rw [runBoundChecks, runBoundChecks]; exact h
  | c :: rest, rs1, rs2, h => by
      rw [runBoundChecks, runBoundChecks]
      by_cases hc : runInvariant c output
      · rw [if_pos hc, if_pos hc]
        refine semRS_runBoundChecks env1 env2 p input output rest _ _ ?_
        simp only [semRS, SemRS.mk.injEq] at h ⊢
        exact ⟨h.1, h.2.1, h.2.2.1, by rw [h.2.2.2.1], h.2.2.2.2.1, h.2.2.2.2.2.1,
               h.2.2.2.2.2.2.1, h.2.2.2.2.2.2.2.1, h.2.2.2.2.2.2.2.2⟩
      · rw [if_neg hc, if_neg hc]
        refine semRS_runBoundChecks env1 env2 p input output rest _ _ ?_
        refine semRS_recordViolation env1 env2 _ _ _ p input (some output) ?_
        simp only [semRS, SemRS.mk.injEq] at h ⊢
        exact ⟨h.1, h.2.1, by rw [h.2.2.1], h.2.2.2.1, h.2.2.2.2.1, h.2.2.2.2.2.1,
               h.2.2.2.2.2.2.1, h.2.2.2.2.2.2.2.1, h.2.2.2.2.2.2.2.2⟩

/-- Projections of a semantic-state equality. -/
theorem semRS_state {rs1 rs2 : RunState} (h : semRS rs1 = semRS rs2) :
    rs1.state = rs2.state := congrArg SemRS.state h

/-- Violation counters agree under the projection. -/
theorem semRS_inv {rs1 rs2 : RunState} (h : semRS rs1 = semRS rs2) :
    rs1.invariantViolations = rs2.invariantViolations :=
  congrArg SemRS.invariantViolations h

/-- Overwriting the record with the same value preserves sem-equality. -/
theorem semRS_withState (s : Val) {rs1 rs2 : RunState} (h : semRS rs1 = semRS rs2) :
    semRS { rs1 with state := s } = semRS { rs2 with state := s } := by
  unfold semRS at h ⊢
  injection h with h1 h2 h3 h4 h5 h6 h7 h8 h9
  simp only []
  rw [h2, h3, h4, h5, h6, h7, h8, h9]

/-- Bumping the tick preserves sem-equality. -/
theorem semRS_bumpTick {rs1 rs2 : RunState} (h : semRS rs1 = semRS rs2) :
    semRS { rs1 with tick := rs1.tick + 1 } = semRS { rs2 with tick := rs2.tick + 1 } := by
  unfold semRS at h ⊢
  injection h with h1 h2 h3 h4 h5 h6 h7 h8 h9
  simp only []
  rw [h1, h2, h3, h4, h5, h6, h7, h8, h9]

/-- Setting the record and bumping the per-primitive counter preserves
sem-equality. -/
theorem semRS_stateAndCounts (s : Val) (p : String) {rs1 rs2 : RunState}
    (h : semRS rs1 = semRS rs2) :
    semRS { rs1 with state := s, primitiveCounts := bumpCount rs1.primitiveCounts p } =
      semRS { rs2 with state := s, primitiveCounts := bumpCount rs2.primitiveCounts p } := by
  unfold semRS at h ⊢
  injection h with h1 h2 h3 h4 h5 h6 h7 h8 h9
  simp only []
  rw [h2, h3, h4, h5, h6, h7, h8, h9]

/-- The post-call part of a loop iteration commutes with the semantic
projection as long as the two environments share the expression oracle
(it is not consulted here at all). -/
theorem semRS_runStepRest (cfg : Config) (env1 env2 : Env) (rs1 rs2 : RunState)
    (st : Step) (input output st1 : Val) (h : semRS rs1 = semRS rs2) :
    (runStepRest cfg env1 rs1 st input output st1).map (fun p => (semRS p.1, p.2)) =
      (runStepRest cfg env2 rs2 st input output st1).map (fun p => (semRS p.1, p.2)) := by
  unfold runStepRest
  simp only []
  have h1 : semRS { rs1 with state := st1 } = semRS { rs2 with state := st1 } :=
    semRS_withState st1 h
  have hA : semRS (synViolationCheck env1 { rs1 with state := st1 } st.primitive input output)
      = semRS (synViolationCheck env2 { rs2 with state := st1 } st.primitive input output) :=
    semRS_synViolationCheck env1 env2 _ _ st.primitive input output h1
  have hB : semRS (runCustomInvariants env1
        (synViolationCheck env1 { rs1 with state := st1 } st.primitive input output)
        st.primitive output input)
      = semRS (runCustomInvariants env2
        (synViolationCheck env2 { rs2 with state := st1 } st.primitive input output)
        st.primitive output input) :=
    semRS_runCustomInvariants env1 env2 _ _ st.primitive output input hA
  rw [semRS_state hB]
  cases happ : applyOutputs output st.output_fields
      (runCustomInvariants env2
        (synViolationCheck env2 { rs2 with state := st1 } st.primitive input output)
        st.primitive output input).state with
  | error e => rfl
  | ok st2 =>
      simp only []
      have hB6 := semRS_stateAndCounts st2 st.primitive hB
      have hB7 := semRS_runBoundChecks env1 env2 st.primitive input output
        (lookupBindings cfg st.primitive) _ _ hB6
      have hB8 := semRS_appendLedgerEntry env1 env2 _ _ st.primitive input output hB7
      simp only [Except.map, Except.ok.injEq, Prod.mk.injEq]
      exact ⟨hB8, congrArg (fun n => cfg.haltOnError && decide (n > 0)) (semRS_inv hB8)⟩

/-- One loop iteration commutes with the semantic projection when the two
environments share the expression oracle. -/
theorem semRS_runStep (cfg : Config) (env1 env2 : Env)
    (heval : env1.evalExpr = env2.evalExpr) (rs1 rs2 : RunState) (st : Step)
    (h : semRS rs1 = semRS rs2) :
    (runStep cfg env1 rs1 st).map (fun p => (semRS p.1, p.2)) =
      (runStep cfg env2 rs2 st).map (fun p => (semRS p.1, p.2)) := by
  unfold runStep
  by_cases hk : isKnownPrimitive st.primitive
  · rw [if_pos hk, if_pos hk]
    simp only []
    have hst : rs1.state = rs2.state := semRS_state h
    rw [hst, heval]
    cases hcall : callPrimitive env2.evalExpr st.primitive (combinedInput rs2.state st)
        rs2.state with
    | error e => rfl
    | ok pr =>
        obtain ⟨output, st1⟩ := pr
        simp only []
        exact semRS_runStepRest cfg env1 env2 _ _ st (combinedInput rs2.state st) output st1
          (semRS_withState rs2.state (semRS_bumpTick h))
  · rw [if_neg hk, if_neg hk]
    simp only [Except.map, Except.ok.injEq, Prod.mk.injEq, and_true]
    exact semRS_recordViolation env1 env2 _ _ _ st.primitive (vObj []) none
      (semRS_bumpTick h)

/-- The whole loop commutes with the semantic projection. -/
theorem semRS_runLoop (cfg : Config) (env1 env2 : Env)
    (heval : env1.evalExpr = env2.evalExpr) :
    ∀ (steps : List Step) (rs1 rs2 : RunState), semRS rs1 = semRS rs2 →
      (runLoop cfg env1 rs1 steps).map semRS = (runLoop cfg env2 rs2 steps).map semRS
  | [], rs1, rs2, h => by simp only [runLoop, Except.map, h]
  | st :: rest, rs1, rs2, h => by
      rw [runLoop, runLoop]
      have hstep := semRS_runStep cfg env1 env2 heval rs1 rs2 st h
      cases hc1 : runStep cfg env1 rs1 st with
      | error e =>
          rw [hc1] at hstep
          cases hc2 : runStep cfg env2 rs2 st with
          | error e2 =>
              rw [hc2] at hstep
              simp only [Except.map] at hstep ⊢
              injection hstep with he
              rw [he]
          | ok p2 => rw [hc2] at hstep; exact absurd hstep (by simp [Except.map])
      | ok p1 =>
          obtain ⟨rs1', b1⟩ := p1
          rw [hc1] at hstep
          cases hc2 : runStep cfg env2 rs2 st with
          | error e2 => rw [hc2] at hstep; exact absurd hstep (by simp [Except.map])
          | ok p2 =>
              obtain ⟨rs2', b2⟩ := p2
              rw [hc2] at hstep
              simp only [Except.map, Except.ok.injEq, Prod.mk.injEq] at hstep
              obtain ⟨hsem', hbeq⟩ := hstep
              subst hbeq
              simp only []
              by_cases hb : b1
              · rw [if_pos hb, if_pos hb]
                simp only [Except.map, hsem']
              · rw [if_neg hb, if_neg hb]
                exact semRS_runLoop cfg env1 env2 heval rest rs1' rs2' hsem'

/-- The per-step ledger payload hashes of a run, in order (violation
entries excluded; a step entry's payload is its input/output pair and its
hash is a pure function of that payload). -/
def stepPayloadHashes (l : List LedgerEntry) : List String :=
  (l.filter (fun e => !isViolEntry e)).map (fun e => e.hash)

/-- The claimed observables of a run: final record content, final record
hash, violation count, per-step ledger payload hashes. -/
def observables (rs : RunState) : Val × String × Nat × List String :=
  (rs.state, finalHash rs, rs.invariantViolations, stepPayloadHashes rs.ledger)

/-- Sem-equal ledgers have the same per-step payload hashes. -/
theorem stepPayloadHashes_of_sem : ∀ l1 l2 : List LedgerEntry,
    l1.map semEntry = l2.map semEntry → stepPayloadHashes l1 = stepPayloadHashes l2
  | [], [], _ => rfl
  | [], e2 :: t2, h => by simp at h
  | e1 :: t1, [], h => by simp at h
  | e1 :: t1, e2 :: t2, h => by
      simp only [List.map_cons, List.cons.injEq] at h
      obtain ⟨hhead, htail⟩ := h
      have htl := stepPayloadHashes_of_sem t1 t2 htail
      simp only [semEntry, Prod.mk.injEq] at hhead
      obtain ⟨hop, hpay⟩ := hhead
      cases hp1 : e1.payload with
      | pStep i1 o1 =>
          cases hp2 : e2.payload with
          | pStep i2 o2 =>
              rw [hp1, hp2] at hpay
              simp only [SemPayload.step.injEq] at hpay
              have hv1 : isViolEntry e1 = false := by simp [isViolEntry, hp1]
              have hv2 : isViolEntry e2 = false := by simp [isViolEntry, hp2]
              simp only [stepPayloadHashes, List.filter_cons, hv1, hv2, Bool.not_false,
                if_pos, List.map_cons]
              rw [hpay.2.2]
              exact congrArg (List.cons e2.hash) htl
          | pViol v2 =>
              rw [hp1, hp2] at hpay
              exact absurd hpay (by simp)
      | pViol v1 =>
          cases hp2 : e2.payload with
          | pStep i2 o2 =>
              rw [hp1, hp2] at hpay
              exact absurd hpay (by simp)
          | pViol v2 =>
              have hv1 : isViolEntry e1 = true := by simp [isViolEntry, hp1]
              have hv2 : isViolEntry e2 = true := by simp [isViolEntry, hp2]
              simp only [stepPayloadHashes, List.filter_cons, hv1, hv2, Bool.not_true]
              simp only [Bool.false_eq_true, if_false]
              exact htl

/-- Sem-equal run states agree on every claimed observable. -/
theorem observables_of_sem {rs1 rs2 : RunState} (h : semRS rs1 = semRS rs2) :
    observables rs1 = observables rs2 := by
  have h1 := semRS_state h
  have h3 := semRS_inv h
  have h8 : rs1.ledger.map semEntry = rs2.ledger.map semEntry := congrArg SemRS.ledger h
  simp only [observables, finalHash, hashState, h1, h3,
    stepPayloadHashes_of_sem _ _ h8]

/-- **C1, amended (determinism up to the environment).**  For a fixed
Plan, fixed initial record and fixed configuration, two runs whose
dynamic-expression evaluations agree (`evalExpr` — i.e. no evaluated rule
text consults `Math.random`, `uuid()`, `now()` or the clock, or both runs
see the same values from them) produce identical final record content,
identical final record hash, identical violation count and identical
per-step ledger payload hashes, even though ledger entry ids and
timestamps (drawn from the environment's uuid/time streams) may differ
arbitrarily between the two runs. -/
theorem c1_determinism_amended (cfg : Config) (env1 env2 : Env)
    (plan : List Step) (init : Val) (heval : env1.evalExpr = env2.evalExpr) :
    (execute cfg env1 plan init).map observables =
      (execute cfg env2 plan init).map observables := by
  have h := semRS_runLoop cfg env1 env2 heval plan (initState init) (initState init) rfl
  unfold execute
  cases hc1 : runLoop cfg env1 (initState init) plan with
  | error e =>
      rw [hc1] at h
      cases hc2 : runLoop cfg env2 (initState init) plan with
      | error e2 =>
          rw [hc2] at h
          simp only [Except.map] at h ⊢
          injection h with he
          rw [he]
      | ok r2 => rw [hc2] at h; exact absurd h (by simp [Except.map])
  | ok r1 =>
      rw [hc1] at h
      cases hc2 : runLoop cfg env2 (initState init) plan with
      | error e2 => rw [hc2] at h; exact absurd h (by simp [Except.map])
      | ok r2 =>
          rw [hc2] at h
          simp only [Except.map, Except.ok.injEq] at h ⊢
          exact observables_of_sem h

/-- First run's ambient environment for the C1 counterexample: the
`uuid()` helper injected into rule templates (source 206-210) draws from
`Math.random`, modelled by the oracle answering `uuid()` with this run's
random draw. -/
def uuidEnvA : Env :=
  { evalExpr := fun e _ =>
      if e = "uuid()" then .ok (vStr "11111111-1111-4111-9111-111111111111")
      else .error "not modelled",
    uuids := fun _ => "idA", times := fun _ => "tA" }

/-- Second run of the same program: `Math.random` produced different
values, so `uuid()` evaluates differently. -/
def uuidEnvB : Env :=
  { evalExpr := fun e _ =>
      if e = "uuid()" then .ok (vStr "22222222-2222-4222-9222-222222222222")
      else .error "not modelled",
    uuids := fun _ => "idB", times := fun _ => "tB" }

/-- A one-step plan whose rule template stores `uuid()` into the record. -/
def uuidRuleStep : Step :=
  { id := "r-uuid", primitive := "RULE_APPLICATOR", input_fields := [], output_fields := [],
    params := [("ruleId", vStr "r1"), ("enabled", vBool true),
               ("assignments", vObj [("x", vStr "\x7b\x7buuid()\x7d\x7d")])] }

/-- **C1, counterexample.**  Determinism as claimed fails on the code: the
rule applicator's template scope exposes `uuid()` (backed by
`Math.random`) and `now()`, and `with`-scoped evaluation reaches `Math`
and `Date` in every evaluator, so two executions of the same Plan on the
same initial record can produce different final records — here the
records `{x: <uuid of run 1>}` vs `{x: <uuid of run 2>}` — hence
different final record hashes. -/
theorem c1_counterexample :
    (execute cfgPlain uuidEnvA [uuidRuleStep] (vObj [])).map (fun r => stringify r.state) =
      .ok (lb ++ "\"x\":\"11111111-1111-4111-9111-111111111111\"" ++ rb)
  ∧ (execute cfgPlain uuidEnvB [uuidRuleStep] (vObj [])).map (fun r => stringify r.state) =
      .ok (lb ++ "\"x\":\"22222222-2222-4222-9222-222222222222\"" ++ rb)
  ∧ (execute cfgPlain uuidEnvA [uuidRuleStep] (vObj [])).map finalHash =
      .ok (lb ++ "\"x\":\"11111111-1111-4111-9111-111111111111\"" ++ rb)
  ∧ (execute cfgPlain uuidEnvB [uuidRuleStep] (vObj [])).map finalHash =
      .ok (lb ++ "\"x\":\"22222222-2222-4222-9222-222222222222\"" ++ rb)
  ∧ (lb ++ "\"x\":\"11111111-1111-4111-9111-111111111111\"" ++ rb : String) ≠
      (lb ++ "\"x\":\"22222222-2222-4222-9222-222222222222\"" ++ rb) :=
  ⟨rfl, rfl, rfl, rfl, by decide⟩

/-- The same environment as `trivialEnv` except for its uuid/time streams
(same expression oracle, different ledger decorations). -/
def trivialEnvB : Env :=
  { evalExpr := fun _ _ => .error "not used", uuids := fun _ => "uuid-B",
    times := fun _ => "tB" }

/-- **C1, witness** for the amended theorem: two runs with the same
expression oracle but different uuid/time streams agree on all claimed
observables. -/
theorem c1_witness :
    (execute cfgPlain trivialEnv [scorerEmptyStep "w1"] (vObj [])).map observables =
      (execute cfgPlain trivialEnvB [scorerEmptyStep "w1"] (vObj [])).map observables :=
  c1_determinism_amended cfgPlain trivialEnv trivialEnvB [scorerEmptyStep "w1"] (vObj []) rfl

/-! ## C9 — rule-applicator assignment failure -/

/-- The cumulative effect of the assignment loop on the record alone:
apply each assignment in order, stopping at the first caught error
(spec-side characterization used to phrase C9's hypotheses). -/
def applyAssignments (eval : EvalFn) (state : Val) : List (String × Val) → Except String Val
  | [] => .ok state
  | (fp, e) :: rest =>
      match applyAssignment eval state fp e with
      | .ok r => applyAssignments eval r.2 rest
      | .error m => .error m

/-- The assignment loop after a successful prefix: the first failing
assignment produces the error output and keeps the record reached so far,
regardless of the accumulated `updates`/`results` and of any later
assignments. -/
theorem assignLoop_error_of_prefix (eval : EvalFn) (rid prio : Option Val)
    (fp : String) (expr : Val) (m : String) (post : List (String × Val)) :
    ∀ (pre : List (String × Val)) (state s1 : Val) (updates : List Val)
      (results : List (String × Val)),
      applyAssignments eval state pre = .ok s1 →
      applyAssignment eval s1 fp expr = .error m →
      assignLoop eval rid prio updates results state (pre ++ (fp, expr) :: post) =
        (mkObj [("error", some (vStr ("Assignment failed for " ++ fp ++ ": " ++ m))),
                ("expression", some expr),
                ("fieldPath", some (vStr fp)),
                ("ruleId", rid)], s1)
  | [], state, s1, updates, results, hpre, hfail => by
      obtain rfl : state = s1 := by
        simpa [applyAssignments] using hpre
      simp [assignLoop, hfail]
  | (fp0, e0) :: pre', state, s1, updates, results, hpre, hfail => by
      simp only [applyAssignments] at hpre
      cases h0 : applyAssignment eval state fp0 e0 with
      | error m0 => rw [h0] at hpre; exact absurd hpre (by simp)
      | ok r =>
          rw [h0] at hpre
          simp only [List.cons_append, assignLoop, h0]
          exact assignLoop_error_of_prefix eval rid prio fp expr m post pre' r.2 s1 _ _ hpre hfail

/-- **C9, confirmed.**  In a rule-applicator invocation (enabled, no
condition) whose assignment list is `pre ++ (fp, expr) :: post`: if every
assignment of `pre` succeeds (leaving record `s1`) and the assignment
`(fp, expr)` fails to resolve or write, the invocation returns the error
output naming the failing field path `fp`, the record stays at `s1` (the
`pre` writes are kept — no rollback), and no assignment of `post` is
applied (the result does not depend on `post`). -/
theorem c9_rule_applicator_abort (eval : EvalFn) (state0 s1 : Val) (rid : String)
    (pre post : List (String × Val)) (fp : String) (expr : Val) (m : String)
    (hpre : applyAssignments eval state0 pre = .ok s1)
    (hfail : applyAssignment eval s1 fp expr = .error m) :
    ruleApplicator eval
        (vObj [("ruleId", vStr rid), ("enabled", vBool true),
               ("assignments", vObj (pre ++ (fp, expr) :: post))]) state0 =
      (mkObj [("error", some (vStr ("Assignment failed for " ++ fp ++ ": " ++ m))),
              ("expression", some expr),
              ("fieldPath", some (vStr fp)),
              ("ruleId", some (vStr rid))], s1) := by
  have hal := assignLoop_error_of_prefix eval (some (vStr rid)) none fp expr m post pre
    state0 s1 [] [] hpre hfail
  simp [ruleApplicator, getField, objGet, jsTruthy, jsTruthyO, jsEntries, hal]

/-- **C9, witness**: `pre = [x ← "1"]` succeeds, the template `{{boom}}`
fails to evaluate, `post = [z ← "2"]` is never applied; the record keeps
`x`. -/
theorem c9_witness :
    ruleApplicator (fun e _ => if e = "boom" then .error "kaboom" else .ok vNull)
        (vObj [("ruleId", vStr "r2"), ("enabled", vBool true),
               ("assignments", vObj [("x", vStr "hello"), ("y", vStr "\x7b\x7bboom\x7d\x7d"),
                                     ("z", vStr "there")])]) (vObj []) =
      (mkObj [("error", some (vStr ("Assignment failed for " ++ "y" ++ ": " ++ "kaboom"))),
              ("expression", some (vStr "\x7b\x7bboom\x7d\x7d")),
              ("fieldPath", some (vStr "y")),
              ("ruleId", some (vStr "r2"))], vObj [("x", vStr "hello")]) :=
  c9_rule_applicator_abort (fun e _ => if e = "boom" then .error "kaboom" else .ok vNull)
    (vObj []) (vObj [("x", vStr "hello")]) "r2"
    [("x", vStr "hello")] [("z", vStr "there")] "y" (vStr "\x7b\x7bboom\x7d\x7d") "kaboom"
    rfl rfl

end Kern
